import Mathlib

/-!
Shallow embedding of the VAPack structural-file core (the `Poscar`/`Ion`/`Ions`
data model of `vasptypes.py`, the spatial queries of `vapack/extensions.py`,
the bond-angle computation of `vapack/analyze.py`, and the `vacuum` and
`interpolate` drivers of `vapack_cli.py` / `poskit_lib.py`).

Numeric values are modelled exactly over an arbitrary linear ordered field `K`
(instantiated at `ℚ` for computation and at `ℝ` for the bond-angle analysis);
numpy float arrays become `V3 K` / `M3 K`.  File-system I/O is modelled by
returning the data that the code would write.  Python exceptions are modelled
by `Option`/`Except` results.
-/

/-- A 3-component vector (a numpy array of shape (3,) in the source). -/
structure V3 (K : Type) where
  x : K
  y : K
  z : K
deriving DecidableEq, Repr

instance {K : Type} [Add K] : Add (V3 K) := ⟨fun a b => ⟨a.x + b.x, a.y + b.y, a.z + b.z⟩⟩

instance {K : Type} [Sub K] : Sub (V3 K) := ⟨fun a b => ⟨a.x - b.x, a.y - b.y, a.z - b.z⟩⟩

def v3zero {K : Type} [Zero K] : V3 K := ⟨0, 0, 0⟩

/-- Componentwise dot product. -/
def dot3 {K : Type} [CommRing K] (a b : V3 K) : K := a.x * b.x + a.y * b.y + a.z * b.z

/-- Squared Euclidean norm, `((v)**2).sum()` in the source. -/
def sumSq {K : Type} [CommRing K] (a : V3 K) : K := dot3 a a

/-- Cross product `np.cross`. -/
def cross3 {K : Type} [CommRing K] (a b : V3 K) : V3 K :=
  ⟨a.y * b.z - a.z * b.y, a.z * b.x - a.x * b.z, a.x * b.y - a.y * b.x⟩

/-- A 3×3 matrix given by its rows (numpy array of shape (3,3)). -/
structure M3 (K : Type) where
  r0 : V3 K
  r1 : V3 K
  r2 : V3 K
deriving DecidableEq, Repr

def transpose3 {K : Type} (m : M3 K) : M3 K :=
  ⟨⟨m.r0.x, m.r1.x, m.r2.x⟩, ⟨m.r0.y, m.r1.y, m.r2.y⟩, ⟨m.r0.z, m.r1.z, m.r2.z⟩⟩

/-- Matrix–vector product `A @ v`. -/
def mulVec3 {K : Type} [CommRing K] (m : M3 K) (v : V3 K) : V3 K :=
  ⟨dot3 m.r0 v, dot3 m.r1 v, dot3 m.r2 v⟩

def det3 {K : Type} [CommRing K] (m : M3 K) : K :=
  m.r0.x * (m.r1.y * m.r2.z - m.r1.z * m.r2.y)
    - m.r0.y * (m.r1.x * m.r2.z - m.r1.z * m.r2.x)
    + m.r0.z * (m.r1.x * m.r2.y - m.r1.y * m.r2.x)

/-- Exact 3×3 matrix inverse (the mathematical value computed by
`np.linalg.inv`); junk when the determinant is zero. -/
def inv3 {K : Type} [Field K] (m : M3 K) : M3 K :=
  let d := det3 m
  ⟨⟨(m.r1.y * m.r2.z - m.r1.z * m.r2.y) / d,
    (m.r0.z * m.r2.y - m.r0.y * m.r2.z) / d,
    (m.r0.y * m.r1.z - m.r0.z * m.r1.y) / d⟩,
   ⟨(m.r1.z * m.r2.x - m.r1.x * m.r2.z) / d,
    (m.r0.x * m.r2.z - m.r0.z * m.r2.x) / d,
    (m.r0.z * m.r1.x - m.r0.x * m.r1.z) / d⟩,
   ⟨(m.r1.x * m.r2.y - m.r1.y * m.r2.x) / d,
    (m.r0.y * m.r2.x - m.r0.x * m.r2.y) / d,
    (m.r0.x * m.r1.y - m.r0.y * m.r1.x) / d⟩⟩

/-- Matrix sum (used by `vacuum`: `poscar.lattice += np.diag(depth)`). -/
instance {K : Type} [Add K] : Add (M3 K) := ⟨fun a b => ⟨a.r0 + b.r0, a.r1 + b.r1, a.r2 + b.r2⟩⟩

/-- `np.diag(depth)` for a 3-vector `depth`. -/
def diag3 {K : Type} [Zero K] (d : V3 K) : M3 K :=
  ⟨⟨d.x, 0, 0⟩, ⟨0, d.y, 0⟩, ⟨0, 0, d.z⟩⟩

/-- `np.sign`. -/
def sgn {K : Type} [LinearOrderedField K] (q : K) : K :=
  if q < 0 then -1 else if 0 < q then 1 else 0

/-- The default tolerance `1e-8` of `Ion._apply_transformation`. -/
def snapTol {K : Type} [LinearOrderedField K] : K := 1 / 100000000

/-- One component of the snap `r * np.array(np.abs(r) > tol, dtype=int)`:
the value is kept when `tol < |r|` and zeroed otherwise. -/
def snapC {K : Type} [LinearOrderedField K] (tol r : K) : K :=
  if tol < |r| then r else 0

def snap3 {K : Type} [LinearOrderedField K] (tol : K) (v : V3 K) : V3 K :=
  ⟨snapC tol v.x, snapC tol v.y, snapC tol v.z⟩

/-- `Ion` of `vasptypes.py`: position, species label, selective-dynamics
flags and velocity.  (The unused `lattice_velocity`-style bookkeeping of the
Python object is not observable and is omitted.) -/
structure Ion (K : Type) where
  position : V3 K
  species : String
  selective_dynamics : Bool × Bool × Bool
  velocity : V3 K
deriving DecidableEq, Repr

/-- The field defaults of the Python constructor `Ion()`. -/
def defIon {K : Type} [LinearOrderedField K] : Ion K :=
  ⟨v3zero, "H", (true, true, true), v3zero⟩

/-- `Ion._apply_transformation(transform, tol=1e-8)`:
`r = A @ position`, then zero every component with `|r_i| ≤ tol`. -/
def applyTransformIon {K : Type} [LinearOrderedField K] (A : M3 K) (ion : Ion K) : Ion K :=
  { ion with position := snap3 snapTol (mulVec3 A ion.position) }

/-- `Ons` of `vasptypes.py`: a list of `Ion` plus a companion list of indices
into the originating POSCAR.  The two lists are independently mutable in the
source; both are kept verbatim. -/
structure Ions (K : Type) where
  vals : List (Ion K)
  indices : List ℕ
deriving DecidableEq, Repr

/-- `Ions.__iter__`: `zip(self.indices, super().__iter__())` — yields
`(index, ion)` pairs, truncated at the shorter of the two lists. -/
def iterPairs {K : Type} (s : Ions K) : List (ℕ × Ion K) := s.indices.zip s.vals

/-- `Ions.append(ion, index)` with an explicit index: appends to both lists. -/
def appendIdx {K : Type} (s : Ions K) (ion : Ion K) (i : ℕ) : Ions K :=
  ⟨s.vals ++ [ion], s.indices ++ [i]⟩

/-- `Ions.append(ion)` with `index=None`: appends only to the ion list. -/
def appendNone {K : Type} (s : Ions K) (ion : Ion K) : Ions K :=
  ⟨s.vals ++ [ion], s.indices⟩

/-- `Poscar` of `vasptypes.py`.  `species` is the insertion-ordered
dict species-label → count; the never-populated `lattice_velocity` and
`mdextra` passthrough fields are omitted. -/
structure Poscar (K : Type) where
  comment : String
  scale : V3 K
  lattice : M3 K
  species : List (String × ℕ)
  selective_dynamics : Bool
  mode : String
  ions : Ions K
deriving DecidableEq, Repr

/-- First character of a string, lower-cased (`self.mode[0].lower()`);
a placeholder for the empty string, on which the Python code would raise. -/
def headLower (s : String) : Char := (s.toList.headD '?').toLower

/-- `Poscar.is_cartesian`: first character of the mode in `("c", "k")`. -/
def isCartesianP {K : Type} (p : Poscar K) : Bool :=
  headLower p.mode == 'c' || headLower p.mode == 'k'

/-- `Poscar.is_direct`: first character of the mode is `d`. -/
def isDirectP {K : Type} (p : Poscar K) : Bool := headLower p.mode == 'd'

/-- The `(k, i)` pairs realised by `for i, _ in self.ions` — `k` is the
live position of the iterator in the backing list and `i` the companion
index used for member access inside the loop body. -/
def pairKI {K : Type} (s : Ions K) : List (ℕ × ℕ) :=
  ((iterPairs s).map Prod.fst).enum

/-- The loop of `_convert_to_direct` / `_convert_to_cartesian`:
`for i, _ in self.ions: self.ions[i]._apply_transformation(A)` —
reads and writes the ion at list position `i`. -/
def convertLoop {K : Type} [LinearOrderedField K] (A : M3 K) (s : Ions K) : Ions K :=
  let step := fun (vs : List (Ion K)) (ki : ℕ × ℕ) =>
    vs.set ki.2 (applyTransformIon A (vs.getD ki.2 defIon))
  { s with vals := (pairKI s).foldl step s.vals }

/-- `Poscar._convert_to_direct` (with the default `error=False`): no-op when
already direct, otherwise apply `inv(lattice.T)` to every ion and set the
mode string to `"Direct"`. -/
def convertToDirect {K : Type} [LinearOrderedField K] (p : Poscar K) : Poscar K :=
  if isDirectP p then p
  else
    { p with ions := convertLoop (inv3 (transpose3 p.lattice)) p.ions, mode := "Direct" }

/-- `Poscar._convert_to_cartesian` (with the default `error=False`). -/
def convertToCartesian {K : Type} [LinearOrderedField K] (p : Poscar K) : Poscar K :=
  if isCartesianP p then p
  else
    { p with ions := convertLoop (transpose3 p.lattice) p.ions, mode := "Cartesian" }

/-- `Poscar._toggle_mode`; `none` models the `RuntimeError` raised on an
unrecognized mode descriptor. -/
def toggleMode {K : Type} [LinearOrderedField K] (p : Poscar K) : Option (Poscar K) :=
  if isDirectP p then some (convertToCartesian p)
  else if isCartesianP p then some (convertToDirect p)
  else none

/-- `position - position // 1`, componentwise fractional part. -/
def fracV {K : Type} [LinearOrderedField K] [FloorRing K] (v : V3 K) : V3 K :=
  ⟨v.x - ⌊v.x⌋, v.y - ⌊v.y⌋, v.z - ⌊v.z⌋⟩

/-- The wrapping loop of `_constrain`:
`for i, ion in self.ions: self.ions[i].position = ion.position - ion.position // 1`
— reads the iterated ion (list position `k`), writes position of the ion at
list position `i`. -/
def constrainLoop {K : Type} [LinearOrderedField K] [FloorRing K] (s : Ions K) : Ions K :=
  let step := fun (vs : List (Ion K)) (ki : ℕ × ℕ) =>
    vs.set ki.2 { vs.getD ki.2 defIon with position := fracV ((vs.getD ki.1 defIon).position) }
  { s with vals := (pairKI s).foldl step s.vals }

/-- `Poscar._constrain`: convert to direct if cartesian, wrap every ion into
the cell, convert back if a conversion happened. -/
def constrainP {K : Type} [LinearOrderedField K] [FloorRing K] (p : Poscar K) : Poscar K :=
  let conv := isCartesianP p
  let pc := if conv then convertToDirect p else p
  let pc := { pc with ions := constrainLoop pc.ions }
  if conv then convertToCartesian pc else pc

/-- One component of the image shift of `get_centered_around`:
`-1 * int(|c| > 0.5) * np.sign(c)`. -/
def shiftC {K : Type} [LinearOrderedField K] (c : K) : K :=
  -1 * (if 1 / 2 < |c| then 1 else 0) * sgn c

def shiftV {K : Type} [LinearOrderedField K] (c : V3 K) : V3 K :=
  ⟨shiftC c.x, shiftC c.y, shiftC c.z⟩

/-- `get_centered_around(poscar, point, mode)` of `vapack/extensions.py`:
deep-copy, convert to direct if needed, convert a cartesian `point` to
direct, `_constrain`, shift every ion by the `{0, ±1}` per-axis offset that
brings it within half a lattice vector of `point`, and re-toggle if a
conversion happened. -/
def getCenteredAround {K : Type} [LinearOrderedField K] [FloorRing K]
    (p : Poscar K) (point : V3 K) (mode : String) : Option (Poscar K) :=
  let conv := isCartesianP p
  let pc := if conv then convertToDirect p else p
  let pt := if headLower mode == 'c' then mulVec3 (inv3 (transpose3 p.lattice)) point else point
  let pc := constrainP pc
  let step := fun (vs : List (Ion K)) (ki : ℕ × ℕ) =>
    let c := shiftV ((vs.getD ki.1 defIon).position - pt)
    vs.set ki.2 { vs.getD ki.2 defIon with position := (vs.getD ki.2 defIon).position + c }
  let pc := { pc with ions := { pc.ions with vals := (pairKI pc.ions).foldl step pc.ions.vals } }
  if conv then toggleMode pc else some pc

/-- `get_select_sphere`: optional re-centering, then membership test
`d <= radius` on the Euclidean distance; since `d = sqrt(sumSq)` this is
embedded as `sumSq ≤ radius²` (all call sites use a positive radius). -/
def getSelectSphere {K : Type} [LinearOrderedField K] [FloorRing K]
    (p : Poscar K) (center : V3 K) (radius : K) (mode : Option String) (periodic : Bool) :
    Option (Ions K) :=
  let md := mode.getD p.mode
  let conv := headLower p.mode != headLower md
  let pcO := if conv then toggleMode p else some p
  pcO.bind fun pc =>
  let pcO2 := if periodic then getCenteredAround pc center md else some pc
  pcO2.bind fun pc2 =>
  let selPairs := (iterPairs pc2.ions).filter
    (fun pr => decide (sumSq (pr.2.position - center) ≤ radius * radius))
  let vals0 := selPairs.map Prod.snd
  let vals :=
    if conv && (pc2.mode == "Cartesian") then
      vals0.map (applyTransformIon (inv3 (transpose3 pc2.lattice)))
    else if conv && (pc2.mode == "Direct") then
      vals0.map (applyTransformIon (transpose3 pc2.lattice))
    else vals0
  some ⟨vals, selPairs.map Prod.fst⟩

/-- `np.allclose(a, b, rtol=0.01)` with the default `atol=1e-8`:
elementwise `|a - b| ≤ atol + rtol * |b|`. -/
def npAllclose3 {K : Type} [LinearOrderedField K] (a b : V3 K) : Bool :=
  let close := fun (u v : K) => decide (|u - v| ≤ 1 / 100000000 + (1 / 100) * |v|)
  close a.x b.x && close a.y b.y && close a.z b.z

/-- The removal loop of `get_neighbors`:
`for i, (_, ion) in enumerate(selection): if np.allclose(...): selection.pop(i)`
— a Python list mutated while iterated, so a pop makes the iterator skip the
element that slides into the popped slot.  `p` is the live iterator
position (equal to the enumerate counter at the time each body runs); the
fuel argument only bounds the iteration count for structural recursion and
never runs out when it starts at the list length. -/
def removeCloseGo {K : Type} [LinearOrderedField K]
    (center : V3 K) : ℕ → ℕ → List (ℕ × Ion K) → List (ℕ × Ion K)
  | 0, _, lst => lst
  | fuel + 1, p, lst =>
    if p < lst.length then
      if npAllclose3 ((lst.getD p (0, defIon)).2.position) center then
        removeCloseGo center fuel (p + 1) (lst.eraseIdx p)
      else
        removeCloseGo center fuel (p + 1) lst
    else lst

def removeClose {K : Type} [LinearOrderedField K]
    (center : V3 K) (lst : List (ℕ × Ion K)) : List (ℕ × Ion K) :=
  removeCloseGo center lst.length 0 lst

/-- `get_neighbors(poscar, index, radius, mode, periodic)`: sphere selection
around ion `index`'s own position with near-coincident ions removed. -/
def getNeighbors {K : Type} [LinearOrderedField K] [FloorRing K]
    (p : Poscar K) (index : ℕ) (radius : K) (mode : Option String) (periodic : Bool) :
    Option (Ions K) :=
  let md := mode.getD p.mode
  let conv := headLower md != headLower p.mode
  let pcO := if conv then toggleMode p else some p
  pcO.bind fun pc =>
  let center := (pc.ions.vals.getD index defIon).position
  (getSelectSphere pc center radius (some md) periodic).bind fun sel =>
  let pairs := removeClose center (iterPairs sel)
  let vals0 := pairs.map Prod.snd
  let vals :=
    if conv && isCartesianP pc then
      vals0.map (applyTransformIon (inv3 (transpose3 pc.lattice)))
    else if conv && isDirectP pc then
      vals0.map (applyTransformIon (transpose3 pc.lattice))
    else vals0
  some ⟨vals, pairs.map Prod.fst⟩

/-- `get_select_box(poscar, x_range, y_range, z_range, mode)`: literal
componentwise range membership, no periodic wrap; a `none` range leaves the
axis unconstrained.  (The source's final re-toggle of its local copy does
not affect the returned selection.) -/
def getSelectBox {K : Type} [LinearOrderedField K]
    (p : Poscar K) (xr yr zr : Option (K × K)) (mode : Option String) : Option (Ions K) :=
  let md := mode.getD p.mode
  let conv := headLower p.mode != headLower md
  let pcO := if conv then toggleMode p else some p
  pcO.bind fun pc =>
  let inR := fun (r : Option (K × K)) (q : K) =>
    match r with
    | none => true
    | some lohi => decide (lohi.1 ≤ q) && decide (q ≤ lohi.2)
  let selPairs := (iterPairs pc.ions).filter
    (fun pr => inR xr pr.2.position.x && inR yr pr.2.position.y && inR zr pr.2.position.z)
  some ⟨selPairs.map Prod.snd, selPairs.map Prod.fst⟩

/-- Python `s.lower().capitalize()`: the first character upper-cased, every
other character lower-cased. -/
def pyLowerCapitalize (s : String) : String :=
  match s.toList with
  | [] => ""
  | c :: rest => String.mk (c.toLower.toUpper :: rest.map Char.toLower)

/-- Ordered-dict increment: bump the count of an existing key in place, or
append a new key with count 1. -/
def assocIncr (l : List (String × ℕ)) (k : String) : List (String × ℕ) :=
  if l.any (fun e => e.1 == k) then
    l.map (fun e => if e.1 == k then (e.1, e.2 + 1) else e)
  else l ++ [(k, 1)]

/-- The species-census half of `Poscar._reconcile_ions`: count every iterated
ion under its case-normalized species label, in first-seen order. -/
def reconcileSpecies {K : Type} (p : Poscar K) : List (String × ℕ) :=
  (iterPairs p.ions).foldl (fun acc pr => assocIncr acc (pyLowerCapitalize pr.2.species)) []

/-- The reordering half of `Poscar._reconcile_ions`:
`ions += list(it.compress(self.ions, mask))` with `mask` comparing the raw
(non-normalized) species string against each normalized key — the result is
a plain list of `(index, ion)` pairs. -/
def reconcileIonPairs {K : Type} (p : Poscar K) : List (ℕ × Ion K) :=
  (reconcileSpecies p).foldl
    (fun acc sp => acc ++ (iterPairs p.ions).filter (fun pr => pr.2.species == sp.1)) []

/-- Scalar multiple of a vector. -/
def vsmul {K : Type} [CommRing K] (c : K) (v : V3 K) : V3 K := ⟨c * v.x, c * v.y, c * v.z⟩

/-- Componentwise division of a vector by a scalar. -/
def vdiv {K : Type} [Field K] (v : V3 K) (c : K) : V3 K := ⟨v.x / c, v.y / c, v.z / c⟩

/-- The boundary-crossing test of `interpolate`:
`(np.sign(ion1.position) * np.sign(ion2.position)).sum() != 3`. -/
def crossedB {K : Type} [LinearOrderedField K] (v1 v2 : V3 K) : Bool :=
  decide (sgn v1.x * sgn v2.x + sgn v1.y * sgn v2.y + sgn v1.z * sgn v2.z ≠ 3)

/-- The boundary-flagged indices collected by `interpolate` before the frame
loop (`boundary_resolution_indices += [i]`). -/
def boundaryIndices {K : Type} [LinearOrderedField K] (p1 p2 : Poscar K) : List ℕ :=
  ((iterPairs p1.ions).zip (iterPairs p2.ions)).foldl
    (fun acc pr => if crossedB pr.1.2.position pr.2.2.position then acc ++ [pr.1.1] else acc) []

/-- One interpolated ion of frame `i` (the body of the inner loop of
`interpolate` in `vapack_cli.py`): a fresh `Ion()` whose position is either
the boundary-resolver value (the `Ion()` default zero vector when no
recognized resolver was supplied) or the linear interpolation, and whose
selective-dynamics flags follow the dynamics-resolver policy. -/
def interpIon {K : Type} [LinearOrderedField K] (images : ℕ) (selDyn : Bool)
    (bres dres : Option String) (boundary : List ℕ) (i : ℕ)
    (j : ℕ) (ion1 ion2 : Ion K) : Ion K :=
  let pos :=
    if j ∈ boundary then
      match bres with
      | some "first" => if i < images + 1 then ion1.position else ion2.position
      | some "last" => if i = 0 then ion1.position else ion2.position
      | _ => v3zero
    else
      ion1.position + vsmul ((i : K) / ((images : K) + 1)) (ion2.position - ion1.position)
  let sd :=
    if selDyn then
      if ion1.selective_dynamics ≠ ion2.selective_dynamics then
        match dres.getD "free" with
        | "first" => ion1.selective_dynamics
        | "last" => ion2.selective_dynamics
        | "free" => (true, true, true)
        | "fixed" => (false, false, false)
        | _ => (true, true, true)
      else ion1.selective_dynamics
    else (true, true, true)
  { position := pos, species := ion1.species, selective_dynamics := sd, velocity := v3zero }

/-- The ion list of one output frame of `interpolate` (built by
`image_template.ions.append(new_ion, j)` over the zipped anchors). -/
def interpFrameIons {K : Type} [LinearOrderedField K] (p1 p2 : Poscar K) (images : ℕ)
    (selDyn : Bool) (bres dres : Option String) (boundary : List ℕ) (i : ℕ) : Ions K :=
  ((iterPairs p1.ions).zip (iterPairs p2.ions)).foldl
    (fun acc pr => appendIdx acc
      (interpIon images selDyn bres dres boundary i pr.1.1 pr.1.2 pr.2.2) pr.1.1)
    ⟨[], []⟩

/-- `interpolate` of `vapack_cli.py`: toggle the second anchor when the mode
strings differ, fail when the ion counts differ, flag boundary-crossing
ions, then emit `images + 2` frames; each frame, written to its own
numbered file in the source, is returned in order here. -/
def interpolate {K : Type} [LinearOrderedField K] (p1 p2 : Poscar K) (images : ℕ)
    (selDyn : Bool) (bres dres : Option String) : Except String (List (Poscar K)) :=
  let p2O := if p2.mode ≠ p1.mode then toggleMode p2 else some p2
  match p2O with
  | none => Except.error "Unrecognized mode descriptor when attempting to toggle!"
  | some p2' =>
    if p1.ions.vals.length ≠ p2'.ions.vals.length then
      Except.error "Number of ions do not match!"
    else
      let boundary := boundaryIndices p1 p2'
      let template := if selDyn then p1 else { p1 with selective_dynamics := false }
      Except.ok ((List.range (images + 2)).map
        (fun i => { template with
          ions := interpFrameIons p1 p2' images selDyn bres dres boundary i }))

/-- `vacuum.run` of `poskit_lib.py` / the `vacuum` command of
`vapack_cli.py`: convert to cartesian, then `lattice += np.diag(depth)`.
The file write of the result is modelled by returning the new `Poscar`. -/
def vacuumRun {K : Type} [LinearOrderedField K] (p : Poscar K) (depth : V3 K) : Poscar K :=
  let pc := convertToCartesian p
  { pc with lattice := pc.lattice + diag3 depth }

/-- `bond_angle(poscar, indices, degrees)` of `vapack/analyze.py`:
convert to cartesian, re-center around the middle ion, take unit vectors to
the two outer ions, and return `arcsin(|cross|)` quadrant-corrected by the
sign of the dot product. -/
noncomputable def bondAngle (p : Poscar ℝ) (ia ic ib : ℕ) (degrees : Bool) : Option ℝ :=
  let pc := convertToCartesian p
  let ionC := pc.ions.vals.getD ic defIon
  (getCenteredAround pc ionC.position pc.mode).map fun pcc =>
    let ionA := pcc.ions.vals.getD ia defIon
    let ionB := pcc.ions.vals.getD ib defIon
    let ra0 := ionA.position - ionC.position
    let ra := vdiv ra0 (Real.sqrt (sumSq ra0))
    let rb0 := ionB.position - ionC.position
    let rb := vdiv rb0 (Real.sqrt (sumSq rb0))
    let mag := Real.sqrt (sumSq (cross3 ra rb))
    let theta := Real.arcsin mag
    let theta := if 0 ≤ dot3 ra rb then theta else Real.pi - theta
    if degrees then theta * (180 / Real.pi) else theta

/-- Python `str.strip()`. -/
def pyStrip (s : String) : String :=
  String.mk (((s.toList.dropWhile Char.isWhitespace).reverse.dropWhile Char.isWhitespace).reverse)

/-- `re.match(r"H[0-9]+", sp)` viewed as a boolean: the label starts with
`H` followed by at least one digit. -/
def matchesPlaceholder (s : String) : Bool :=
  match s.toList with
  | 'H' :: c :: _ => c.isDigit
  | _ => false

/-- The decimal digit characters. -/
def digitChar (n : ℕ) : Char :=
  match n with
  | 0 => '0' | 1 => '1' | 2 => '2' | 3 => '3' | 4 => '4'
  | 5 => '5' | 6 => '6' | 7 => '7' | 8 => '8' | 9 => '9'
  | _ => '?'

/-- The decimal digit string of a natural number, most significant digit
first — Python `str(n)`. -/
def natDigits (n : ℕ) : List Char :=
  if h : n < 10 then [digitChar n]
  else natDigits (n / 10) ++ [digitChar (n % 10)]
decreasing_by
  have : 0 < n := by omega
  exact Nat.div_lt_self this (by omega)

def natStr (n : ℕ) : String := String.mk (natDigits n)

/-- The auto-generated species labels `"H" + str(i + 1)` used when the file
carries no species-name line. -/
def placeholderNames (n : ℕ) : List String :=
  (List.range n).map (fun i => "H" ++ natStr (i + 1))

/-- Ordered-dict insertion `d[k] = v`: overwrite in place, else append. -/
def upsert (l : List (String × ℕ)) (k : String) (v : ℕ) : List (String × ℕ) :=
  if l.any (fun e => e.1 == k) then l.map (fun e => if e.1 == k then (k, v) else e)
  else l ++ [(k, v)]

/-- A structure file in the fixed line order of §6 of the format: comment
line, scale factors, lattice rows, optional species-name line, per-species
counts, optional selective-dynamics marker, mode line, and one ion line per
declared ion.  Numeric fields hold the exact decimal values written in the
file; the T/F flag columns (present only under selective dynamics) are
booleans. -/
structure PFile where
  comment : String
  scaleVals : List ℚ
  lattice : M3 ℚ
  speciesNames : Option (List String)
  counts : List ℕ
  sdMarker : Bool
  modeLine : String
  ionLines : List (V3 ℚ × (Bool × Bool × Bool))
deriving DecidableEq, Repr

/-- The species keys produced on read: the normalized species-name line, or
the generated placeholders. -/
def parseSpeciesKeys (F : PFile) : List String :=
  match F.speciesNames with
  | some l => l.map pyLowerCapitalize
  | none => placeholderNames F.counts.length

/-- `Poscar.from_file`: `none` models the errors raised on a malformed
scale-factor count, a species/ion-count mismatch, an unknown position mode,
or a file with fewer ion lines than the species counts announce. -/
def parsePoscar (F : PFile) : Option (Poscar ℚ) :=
  let scl? : Option (V3 ℚ) :=
    match F.scaleVals with
    | [s] => some ⟨s, s, s⟩
    | [a, b, c] => some ⟨a, b, c⟩
    | _ => none
  scl?.bind fun scl =>
  let names := parseSpeciesKeys F
  if names.length ≠ F.counts.length then none
  else
    let speciesMap := (names.zip F.counts).foldl
      (fun acc e => upsert acc (pyLowerCapitalize e.1) e.2) []
    let mode? :=
      if headLower F.modeLine == 'c' || headLower F.modeLine == 'k' then some "Cartesian"
      else if headLower F.modeLine == 'd' then some "Direct"
      else none
    mode?.bind fun mode =>
    let total := (speciesMap.map Prod.snd).sum
    if F.ionLines.length < total then none
    else
      let expSpecies := speciesMap.flatMap (fun e => List.replicate e.2 e.1)
      let lines := F.ionLines.take total
      let ions := (expSpecies.zip lines).map (fun e =>
        ({ position := e.2.1, species := e.1,
           selective_dynamics := if F.sdMarker then e.2.2 else (true, true, true),
           velocity := v3zero } : Ion ℚ))
      some { comment := pyStrip F.comment, scale := scl, lattice := F.lattice,
             species := speciesMap, selective_dynamics := F.sdMarker, mode := mode,
             ions := ⟨ions, List.range total⟩ }

/-- The decimal value printed by `"{:>11.8f}".format`: the input rounded to
8 decimal places. -/
def round8 (q : ℚ) : ℚ := (⌊q * 100000000 + 1 / 2⌋ : ℤ) / 100000000

def round8V (v : V3 ℚ) : V3 ℚ := ⟨round8 v.x, round8 v.y, round8 v.z⟩

def round8M (m : M3 ℚ) : M3 ℚ := ⟨round8V m.r0, round8V m.r1, round8V m.r2⟩

/-- `np.allclose(self.scale, [self.scale[0]] * 3)` with the numpy defaults
`rtol=1e-5`, `atol=1e-8`. -/
def scaleAllclose (s : V3 ℚ) : Bool :=
  let close := fun (a : ℚ) => decide (|a - s.x| ≤ 1 / 100000000 + (1 / 100000) * |s.x|)
  close s.x && close s.y && close s.z

/-- The content written by `Poscar.to_string`, line by line: comment, scale
factors (collapsed to one when all three are `allclose` to the first),
lattice rows, the species-name line (omitted when every label matches the
placeholder pattern), the counts, the selective-dynamics marker presence,
the mode line, and the ion lines with their flag columns when selective
dynamics is enabled. -/
structure POut where
  commentOut : String
  scaleOut : List ℚ
  latticeOut : M3 ℚ
  speciesOut : Option (List String)
  countsOut : List ℕ
  sdOut : Bool
  modeOut : String
  ionLinesOut : List (V3 ℚ × Option (Bool × Bool × Bool))
deriving DecidableEq, Repr

/-- `Poscar.to_string` of `vasptypes.py`. -/
def toStringP (p : Poscar ℚ) : POut :=
  { commentOut := p.comment
    scaleOut :=
      if scaleAllclose p.scale then [round8 p.scale.x]
      else [round8 p.scale.x, round8 p.scale.y, round8 p.scale.z]
    latticeOut := round8M p.lattice
    speciesOut :=
      if (p.species.map Prod.fst).all matchesPlaceholder then none
      else some (p.species.map Prod.fst)
    countsOut := p.species.map Prod.snd
    sdOut := p.selective_dynamics
    modeOut := p.mode
    ionLinesOut := (iterPairs p.ions).map (fun pr =>
      (round8V pr.2.position,
       if p.selective_dynamics then some pr.2.selective_dynamics else none)) }

/-!  Concrete structures for the periodic-correctness scenario: two ions on
opposite sides of the cell boundary of a unit cubic lattice. -/

def ionA : Ion ℚ := ⟨⟨99/100, 1/2, 1/2⟩, "A", (true, true, true), v3zero⟩

def ionB : Ion ℚ := ⟨⟨1/100, 1/2, 1/2⟩, "B", (true, true, true), v3zero⟩

/-- Ion `B` shifted to the periodic image at `x = 1.01` seen from `A`. -/
def ionBshift : Ion ℚ := ⟨⟨101/100, 1/2, 1/2⟩, "B", (true, true, true), v3zero⟩

/-- Ion `A` shifted to the periodic image at `x = -0.01` seen from `B`. -/
def ionAshift : Ion ℚ := ⟨⟨-1/100, 1/2, 1/2⟩, "A", (true, true, true), v3zero⟩

def idM : M3 ℚ := ⟨⟨1, 0, 0⟩, ⟨0, 1, 0⟩, ⟨0, 0, 1⟩⟩

def pC2 : Poscar ℚ :=
  ⟨"both", ⟨1, 1, 1⟩, idM, [("A", 1), ("B", 1)], false, "Direct", ⟨[ionA, ionB], [0, 1]⟩⟩

def pC2cA : Poscar ℚ :=
  ⟨"both", ⟨1, 1, 1⟩, idM, [("A", 1), ("B", 1)], false, "Direct", ⟨[ionA, ionBshift], [0, 1]⟩⟩

def pC2cB : Poscar ℚ :=
  ⟨"both", ⟨1, 1, 1⟩, idM, [("A", 1), ("B", 1)], false, "Direct", ⟨[ionAshift, ionB], [0, 1]⟩⟩

/-- Claim C4 input: a valid one-ion POSCAR whose ion carries the
lower-case species string `"si"`. -/
def pC4 : Poscar ℚ :=
  ⟨"", ⟨1, 1, 1⟩, ⟨⟨1, 0, 0⟩, ⟨0, 1, 0⟩, ⟨0, 0, 1⟩⟩, [("si", 1)], false, "Direct",
    ⟨[⟨v3zero, "si", (true, true, true), v3zero⟩], [0]⟩⟩

def s9 : Ions ℚ := ⟨[defIon], [0]⟩

/-- A cubic-lattice, unit-scale, 2-species 4-ion structure in Direct mode. -/
def pC8 : Poscar ℚ :=
  ⟨"cubic", ⟨1, 1, 1⟩, ⟨⟨4, 0, 0⟩, ⟨0, 4, 0⟩, ⟨0, 0, 4⟩⟩, [("Si", 2), ("O", 2)], false,
    "Direct",
    ⟨[⟨⟨1/4, 1/4, 1/4⟩, "Si", (true, true, true), v3zero⟩,
      ⟨⟨3/4, 3/4, 3/4⟩, "Si", (true, true, true), v3zero⟩,
      ⟨⟨1/2, 1/2, 1/4⟩, "O", (true, true, true), v3zero⟩,
      ⟨⟨1/2, 1/2, 3/4⟩, "O", (true, true, true), v3zero⟩], [0, 1, 2, 3]⟩⟩

/-- `pC8` after `vacuum (0, 0, 5)`: cartesian ions, c-row stretched by 5. -/
def pC8res : Poscar ℚ :=
  ⟨"cubic", ⟨1, 1, 1⟩, ⟨⟨4, 0, 0⟩, ⟨0, 4, 0⟩, ⟨0, 0, 9⟩⟩, [("Si", 2), ("O", 2)], false,
    "Cartesian",
    ⟨[⟨⟨1, 1, 1⟩, "Si", (true, true, true), v3zero⟩,
      ⟨⟨3, 3, 3⟩, "Si", (true, true, true), v3zero⟩,
      ⟨⟨2, 2, 1⟩, "O", (true, true, true), v3zero⟩,
      ⟨⟨2, 2, 3⟩, "O", (true, true, true), v3zero⟩], [0, 1, 2, 3]⟩⟩

/-- A Direct-mode structure with a non-unit c-axis scale factor, on which
the claimed scale division and mode restoration of `vacuum` fail. -/
def pC8bad : Poscar ℚ :=
  ⟨"bad", ⟨1, 1, 2⟩, ⟨⟨1, 0, 0⟩, ⟨0, 1, 0⟩, ⟨0, 0, 1⟩⟩, [("Si", 1)], false, "Direct",
    ⟨[⟨⟨1/2, 1/2, 1/2⟩, "Si", (true, true, true), v3zero⟩], [0]⟩⟩

/-- A Poscar whose tiny a-axis lattice constant drives the intermediate
cartesian x-coordinate below the snap tolerance. -/
def pC3bad : Poscar ℚ :=
  ⟨"tiny", ⟨1, 1, 1⟩, ⟨⟨1/1000000, 0, 0⟩, ⟨0, 1, 0⟩, ⟨0, 0, 1⟩⟩, [("Si", 1)], false,
    "Direct", ⟨[⟨⟨1/200, 1/2, 1/2⟩, "Si", (true, true, true), v3zero⟩], [0]⟩⟩

/-- `pC3bad` after toggling twice: the x-coordinate has been snapped away. -/
def pC3badq : Poscar ℚ :=
  ⟨"tiny", ⟨1, 1, 1⟩, ⟨⟨1/1000000, 0, 0⟩, ⟨0, 1, 0⟩, ⟨0, 0, 1⟩⟩, [("Si", 1)], false,
    "Direct", ⟨[⟨⟨0, 1/2, 1/2⟩, "Si", (true, true, true), v3zero⟩], [0]⟩⟩

/-- A unit-lattice one-ion Direct Poscar clear of the snap tolerance. -/
def pC3one : Poscar ℚ :=
  ⟨"one", ⟨1, 1, 1⟩, ⟨⟨1, 0, 0⟩, ⟨0, 1, 0⟩, ⟨0, 0, 1⟩⟩, [("Si", 1)], false, "Direct",
    ⟨[⟨⟨1/2, 1/3, 1/4⟩, "Si", (true, true, true), v3zero⟩], [0]⟩⟩

/-! ### C6: linear interpolation frames -/

/-- First endpoint structure for the interpolation witness. -/
def pC6a : Poscar ℚ :=
  ⟨"start", ⟨1, 1, 1⟩, idM, [("Si", 1)], false, "Direct",
   ⟨[{ defIon with position := ⟨1/4, 1/4, 1/4⟩ }], [0]⟩⟩

/-- Second endpoint structure for the interpolation witness. -/
def pC6b : Poscar ℚ :=
  ⟨"end", ⟨1, 1, 1⟩, idM, [("Si", 1)], false, "Direct",
   ⟨[{ defIon with position := ⟨3/4, 1/4, 1/4⟩ }], [0]⟩⟩

/-! ### C5: bond angle quadrant formula and values -/

def latC5 {K : Type} [LinearOrderedField K] : M3 K := ⟨⟨10, 0, 0⟩, ⟨0, 10, 0⟩, ⟨0, 0, 10⟩⟩

def ionAt {K : Type} [LinearOrderedField K] (v : V3 K) : Ion K :=
  ⟨v, "Si", (true, true, true), v3zero⟩

/-- A cubic cell with a center ion (index 0), two ions exactly opposite
across it along x (indices 1 and 2) and one ion at a right angle along y
(index 3). -/
def pC5 {K : Type} [LinearOrderedField K] : Poscar K :=
  ⟨"angles", ⟨1, 1, 1⟩, latC5, [("Si", 4)], false, "Cartesian",
   ⟨[ionAt ⟨5, 5, 5⟩, ionAt ⟨6, 5, 5⟩, ionAt ⟨4, 5, 5⟩, ionAt ⟨5, 6, 5⟩], [0, 1, 2, 3]⟩⟩

/-- The spec's formula: unit vector `v / sqrt(v . v)`. -/
noncomputable def specUnit (v : V3 ℝ) : V3 ℝ := vdiv v (Real.sqrt (sumSq v))

/-- The spec's formula: `arcsin |ra x rb|` quadrant-corrected by the sign of
`ra . rb`. -/
noncomputable def specQuadAngle (ra rb : V3 ℝ) : ℝ :=
  if 0 ≤ dot3 ra rb then Real.arcsin (Real.sqrt (sumSq (cross3 ra rb)))
  else Real.pi - Real.arcsin (Real.sqrt (sumSq (cross3 ra rb)))

/-- Well-formedness of a structure file, matching the assumptions of §6 of
the format: one or three scale factors, a species-name line (when present)
of nonempty alphabetic labels matching the counts line, distinct species
keys after normalization, a recognized mode letter, and exactly as many ion
lines as the counts announce. -/
def wellFormedF (F : PFile) : Prop :=
  (F.scaleVals.length = 1 ∨ F.scaleVals.length = 3) ∧
  (match F.speciesNames with
   | some l => l.length = F.counts.length ∧ l ≠ [] ∧
       ∀ s ∈ l, s.toList ≠ [] ∧ ∀ c ∈ s.toList, c.isAlpha = true
   | none => True) ∧
  (parseSpeciesKeys F).Nodup ∧
  (headLower F.modeLine = 'c' ∨ headLower F.modeLine = 'k' ∨ headLower F.modeLine = 'd') ∧
  F.ionLines.length = F.counts.sum

/-- The scale vector read from a well-formed file. -/
def sclF (F : PFile) : V3 ℚ :=
  match F.scaleVals with
  | [s] => ⟨s, s, s⟩
  | [a, b, c] => ⟨a, b, c⟩
  | _ => v3zero

/-- The normalized mode string of a well-formed file. -/
def modeF (F : PFile) : String :=
  if headLower F.modeLine = 'c' ∨ headLower F.modeLine = 'k' then "Cartesian" else "Direct"

/-- The ion list read from a well-formed file. -/
def ionsF (F : PFile) : List (Ion ℚ) :=
  (((((parseSpeciesKeys F).zip F.counts).flatMap (fun e => List.replicate e.2 e.1))).zip
    F.ionLines).map (fun e =>
      ({ position := e.2.1, species := e.1,
         selective_dynamics := if F.sdMarker then e.2.2 else (true, true, true),
         velocity := v3zero } : Ion ℚ))

/-- A small well-formed structure file for the round-trip witness. -/
def fC1 : PFile :=
  ⟨"Si cell", [1], ⟨⟨1, 0, 0⟩, ⟨0, 1, 0⟩, ⟨0, 0, 1⟩⟩, some ["Si"], [1], true, "Direct",
   [(⟨0, 0, 0⟩, (true, false, true))]⟩

/-- The witness file with a comment carrying leading whitespace. -/
def fC1x : PFile :=
  ⟨" a", [1], ⟨⟨1, 0, 0⟩, ⟨0, 1, 0⟩, ⟨0, 0, 1⟩⟩, some ["Si"], [1], false, "Direct",
   [(⟨0, 0, 0⟩, (true, true, true))]⟩

/-- The witness file with three distinct scale factors within `np.allclose`
of one another. -/
def fC1y : PFile :=
  ⟨"s", [1, 1 + 1/1000000, 1], ⟨⟨1, 0, 0⟩, ⟨0, 1, 0⟩, ⟨0, 0, 1⟩⟩, some ["Si"], [1], false,
   "Direct", [(⟨0, 0, 0⟩, (true, true, true))]⟩

theorem v3add_eval {K : Type} [Add K] (a b : V3 K) :
    a + b = ⟨a.x + b.x, a.y + b.y, a.z + b.z⟩ := rfl

theorem v3sub_eval {K : Type} [Sub K] (a b : V3 K) :
    a - b = ⟨a.x - b.x, a.y - b.y, a.z - b.z⟩ := rfl

theorem m3add_eval {K : Type} [Add K] (a b : M3 K) :
    a + b = ⟨a.r0 + b.r0, a.r1 + b.r1, a.r2 + b.r2⟩ := rfl

theorem pC2_mode : pC2.mode = "Direct" := rfl

theorem pC2_ions : pC2.ions = ⟨[ionA, ionB], [0, 1]⟩ := rfl

theorem ionA_pos : ionA.position = ⟨99/100, 1/2, 1/2⟩ := rfl

theorem ionB_pos : ionB.position = ⟨1/100, 1/2, 1/2⟩ := rfl

theorem pC2cA_mode : pC2cA.mode = "Direct" := rfl

theorem pC2cA_ions : pC2cA.ions = ⟨[ionA, ionBshift], [0, 1]⟩ := rfl

theorem pC2cB_mode : pC2cB.mode = "Direct" := rfl

theorem pC2cB_ions : pC2cB.ions = ⟨[ionAshift, ionB], [0, 1]⟩ := rfl

set_option maxHeartbeats 2000000 in
set_option maxRecDepth 8000 in
theorem hcA : getCenteredAround pC2 ⟨99/100, 1/2, 1/2⟩ "Direct" = some pC2cA := by
  norm_num +decide only [getCenteredAround, constrainP, constrainLoop, convertToDirect,
    convertToCartesian, convertLoop, toggleMode, pairKI, iterPairs,
    isDirectP, isCartesianP, headLower, pC2, pC2cA, ionA, ionB, ionBshift, idM, defIon, v3zero,
    fracV, shiftV, shiftC, sgn, applyTransformIon, mulVec3, dot3, List.enum,
    v3add_eval, v3sub_eval,
    List.zip_cons_cons, List.zip_nil_left, List.zip_nil_right, List.map_cons, List.map_nil,
    List.enumFrom_cons, List.enumFrom_nil, List.foldl_cons, List.foldl_nil,
    List.getD_cons_zero, List.getD_cons_succ, List.set_cons_zero, List.set_cons_succ,
    List.getD_nil, List.set_nil, Option.getD_some, Option.getD_none, reduceIte,
    ite_true, ite_false, Option.some_bind, Option.none_bind]
  norm_num [abs_of_nonneg, abs_of_nonpos, abs_zero]

set_option maxHeartbeats 2000000 in
set_option maxRecDepth 8000 in
theorem hcB : getCenteredAround pC2 ⟨1/100, 1/2, 1/2⟩ "Direct" = some pC2cB := by
  norm_num +decide only [getCenteredAround, constrainP, constrainLoop, convertToDirect,
    convertToCartesian, convertLoop, toggleMode, pairKI, iterPairs,
    isDirectP, isCartesianP, headLower, pC2, pC2cB, ionA, ionB, ionAshift, idM, defIon, v3zero,
    fracV, shiftV, shiftC, sgn, applyTransformIon, mulVec3, dot3, List.enum,
    v3add_eval, v3sub_eval,
    List.zip_cons_cons, List.zip_nil_left, List.zip_nil_right, List.map_cons, List.map_nil,
    List.enumFrom_cons, List.enumFrom_nil, List.foldl_cons, List.foldl_nil,
    List.getD_cons_zero, List.getD_cons_succ, List.set_cons_zero, List.set_cons_succ,
    List.getD_nil, List.set_nil, Option.getD_some, Option.getD_none, reduceIte,
    ite_true, ite_false, Option.some_bind, Option.none_bind]
  norm_num [abs_of_nonneg, abs_of_nonpos, abs_zero]

set_option maxHeartbeats 2000000 in
theorem hsA : getSelectSphere pC2 ⟨99/100, 1/2, 1/2⟩ (1/10) (some "Direct") true =
    some ⟨[ionA, ionBshift], [0, 1]⟩ := by
  norm_num +decide only [getSelectSphere, hcA, pC2_mode, pC2cA_mode, pC2cA_ions, toggleMode,
    iterPairs, headLower, ionA, ionBshift, sumSq, dot3, v3sub_eval,
    List.zip_cons_cons, List.zip_nil_left, List.zip_nil_right, List.map_cons, List.map_nil,
    List.filter_cons, List.filter_nil, Option.getD_some, Option.getD_none, reduceIte,
    ite_true, ite_false, Option.some_bind, Option.none_bind, Bool.and_eq_true,
    decide_eq_true_eq]

set_option maxHeartbeats 2000000 in
theorem hsB : getSelectSphere pC2 ⟨1/100, 1/2, 1/2⟩ (1/10) (some "Direct") true =
    some ⟨[ionAshift, ionB], [0, 1]⟩ := by
  norm_num +decide only [getSelectSphere, hcB, pC2_mode, pC2cB_mode, pC2cB_ions, toggleMode,
    iterPairs, headLower, ionAshift, ionB, sumSq, dot3, v3sub_eval,
    List.zip_cons_cons, List.zip_nil_left, List.zip_nil_right, List.map_cons, List.map_nil,
    List.filter_cons, List.filter_nil, Option.getD_some, Option.getD_none, reduceIte,
    ite_true, ite_false, Option.some_bind, Option.none_bind, Bool.and_eq_true,
    decide_eq_true_eq]

set_option maxHeartbeats 1000000 in
theorem hrA : removeClose (⟨99/100, 1/2, 1/2⟩ : V3 ℚ) [(0, ionA), (1, ionBshift)] =
    [(1, ionBshift)] := by
  norm_num +decide only [removeClose, removeCloseGo, npAllclose3, ionA, ionBshift,
    v3sub_eval, List.length_cons, List.length_nil, List.eraseIdx, reduceIte,
    List.getD_cons_zero, List.getD_cons_succ, List.getD_nil,
    Bool.and_eq_true, decide_eq_true_eq, v3zero]
  norm_num [abs_of_nonneg, abs_of_nonpos, abs_zero]

set_option maxHeartbeats 1000000 in
theorem hrB : removeClose (⟨1/100, 1/2, 1/2⟩ : V3 ℚ) [(0, ionAshift), (1, ionB)] =
    [(0, ionAshift)] := by
  norm_num +decide only [removeClose, removeCloseGo, npAllclose3, ionAshift, ionB,
    v3sub_eval, List.length_cons, List.length_nil, List.eraseIdx, reduceIte,
    List.getD_cons_zero, List.getD_cons_succ, List.getD_nil,
    Bool.and_eq_true, decide_eq_true_eq, v3zero]
  norm_num [abs_of_nonneg, abs_of_nonpos, abs_zero]

set_option maxHeartbeats 1000000 in
theorem neighborsOfA : getNeighbors pC2 0 (1/10) none true = some ⟨[ionBshift], [1]⟩ := by
  norm_num +decide only [getNeighbors, hsA, hrA, pC2_mode, pC2_ions, ionA_pos, toggleMode,
    iterPairs, isDirectP, isCartesianP, headLower, defIon,
    List.zip_cons_cons, List.zip_nil_left, List.zip_nil_right, List.map_cons, List.map_nil,
    List.getD_cons_zero, List.getD_cons_succ,
    Option.getD_some, Option.getD_none, reduceIte, ite_true, ite_false,
    Option.some_bind, Option.none_bind]

set_option maxHeartbeats 1000000 in
theorem neighborsOfB : getNeighbors pC2 1 (1/10) none true = some ⟨[ionAshift], [0]⟩ := by
  norm_num +decide only [getNeighbors, hsB, hrB, pC2_mode, pC2_ions, ionB_pos, toggleMode,
    iterPairs, isDirectP, isCartesianP, headLower, defIon,
    List.zip_cons_cons, List.zip_nil_left, List.zip_nil_right, List.map_cons, List.map_nil,
    List.getD_cons_zero, List.getD_cons_succ,
    Option.getD_some, Option.getD_none, reduceIte, ite_true, ite_false,
    Option.some_bind, Option.none_bind]

set_option maxHeartbeats 1000000 in
theorem boxSelectsOnlyB : getSelectBox pC2 (some (0, 1/2)) none none none =
    some ⟨[ionB], [1]⟩ := by
  norm_num +decide only [getSelectBox, pC2_mode, pC2_ions, toggleMode, iterPairs,
    headLower, ionA, ionB,
    List.zip_cons_cons, List.zip_nil_left, List.zip_nil_right, List.map_cons, List.map_nil,
    List.filter_cons, List.filter_nil, Option.getD_some, Option.getD_none, reduceIte,
    ite_true, ite_false, Option.some_bind, Option.none_bind, Bool.and_eq_true,
    decide_eq_true_eq]

/-- Claim C2: in a unit cubic cell in Direct mode, the ion at
(0.99, 0.5, 0.5) and the ion at (0.01, 0.5, 0.5) are mutual neighbors under
`get_neighbors` with `periodic=True` and radius 0.1 (each returned as the
nearest periodic image of the other), while `get_select_box` with the
literal x-range [0, 0.5] — which excludes the high side of the cell —
returns only the ion whose literal coordinates lie inside the range. -/
theorem C2_periodic_neighbors_vs_literal_box :
    getNeighbors pC2 0 (1/10) none true = some ⟨[ionBshift], [1]⟩ ∧
    getNeighbors pC2 1 (1/10) none true = some ⟨[ionAshift], [0]⟩ ∧
    getSelectBox pC2 (some (0, 1/2)) none none none = some ⟨[ionB], [1]⟩ :=
  ⟨neighborsOfA, neighborsOfB, boxSelectsOnlyB⟩

/-!  Character-level facts about the ASCII case maps used by Python's
`str.lower` / `str.capitalize` modelling. -/

theorem toNat_ofNatAux (n : ℕ) (h : n.isValidChar) : (Char.ofNatAux n h).toNat = n := by
  simp [Char.ofNatAux, Char.toNat, UInt32.toNat, BitVec.toNat_ofNatLt]

theorem toNat_ofNat_valid (n : ℕ) (h : n.isValidChar) : (Char.ofNat n).toNat = n := by
  simp [Char.ofNat, h, toNat_ofNatAux]

theorem toLower_toNat (c : Char) :
    (c.toLower).toNat = if 65 ≤ c.toNat ∧ c.toNat ≤ 90 then c.toNat + 32 else c.toNat := by
  simp only [Char.toLower]
  split
  case isTrue h =>
    have hv : (c.toNat + 32).isValidChar := by
      left
      omega
    rw [toNat_ofNat_valid _ hv]
  case isFalse h => rfl

theorem toUpper_toNat (c : Char) :
    (c.toUpper).toNat = if 97 ≤ c.toNat ∧ c.toNat ≤ 122 then c.toNat - 32 else c.toNat := by
  simp only [Char.toUpper]
  split
  case isTrue h =>
    have hv : (c.toNat - 32).isValidChar := by
      left
      omega
    rw [toNat_ofNat_valid _ hv]
  case isFalse h => rfl

theorem char_eq_of_toNat_eq {c d : Char} (h : c.toNat = d.toNat) : c = d := by
  apply Char.ext
  exact UInt32.ext h

theorem isDigit_iff_toNat (c : Char) : c.isDigit = true ↔ 48 ≤ c.toNat ∧ c.toNat ≤ 57 := by
  simp only [Char.isDigit, Bool.and_eq_true, decide_eq_true_eq, ge_iff_le, Char.le_def]
  exact Iff.rfl

theorem isAlpha_iff_toNat (c : Char) :
    c.isAlpha = true ↔ (65 ≤ c.toNat ∧ c.toNat ≤ 90) ∨ (97 ≤ c.toNat ∧ c.toNat ≤ 122) := by
  simp only [Char.isAlpha, Char.isUpper, Char.isLower, Bool.or_eq_true, Bool.and_eq_true,
    decide_eq_true_eq, ge_iff_le, Char.le_def]
  exact Iff.rfl

/-- ASCII lower-casing is idempotent. -/
theorem toLower_toLower (c : Char) : c.toLower.toLower = c.toLower := by
  apply char_eq_of_toNat_eq
  rw [toLower_toNat, toLower_toNat]
  split_ifs <;> omega

/-- The capitalized head `toUpper (toLower c)` is a fixed point of itself. -/
theorem capHead_idem (c : Char) :
    (c.toLower.toUpper).toLower.toUpper = c.toLower.toUpper := by
  apply char_eq_of_toNat_eq
  simp only [toUpper_toNat, toLower_toNat]
  split_ifs <;> omega

/-- Lower-casing an alphabetic character never yields a digit. -/
theorem toLower_not_digit_of_alpha {c : Char} (h : c.isAlpha = true) :
    (c.toLower).isDigit = false := by
  rw [isAlpha_iff_toNat] at h
  rw [Bool.eq_false_iff]
  intro hd
  rw [isDigit_iff_toNat, toLower_toNat] at hd
  rcases h with h | h <;> [skip; skip] <;> split_ifs at hd <;> omega

/-- `pyLowerCapitalize` is idempotent. -/
theorem pyLowerCapitalize_idem (s : String) :
    pyLowerCapitalize (pyLowerCapitalize s) = pyLowerCapitalize s := by
  rcases s with ⟨l⟩
  cases l with
  | nil => rfl
  | cons c rest =>
    show pyLowerCapitalize (String.mk (c.toLower.toUpper :: rest.map Char.toLower)) = _
    show String.mk _ = String.mk _
    rw [capHead_idem, List.map_map]
    congr 1
    congr 1
    apply List.map_congr_left
    intro a _
    simp only [Function.comp_apply, toLower_toLower]

/-- Claim C4: `_reconcile_ions` counts every ion under its case-normalized
species key (here `"Si"`, giving `sum(species.values()) = 1`), but reorders
the ion list by comparing each ion's raw species string against the
normalized keys, so the `"si"` ion is dropped and the rebuilt ion list is
empty: the invariant `sum(species.values()) == len(ions)` fails on ion
lists whose species strings differ in case from the species keys. -/
theorem C4_reconcile_invariant_case_bug :
    reconcileSpecies pC4 = [("Si", 1)] ∧
    ((reconcileSpecies pC4).map Prod.snd).sum = 1 ∧
    pC4.ions.vals.length = 1 ∧
    (reconcileIonPairs pC4).length = 0 := by decide

theorem zip_append_of_le {α β : Type} :
    ∀ (l : List α) (v w : List β), l.length ≤ v.length → l.zip (v ++ w) = l.zip v := by
  intro l
  induction l with
  | nil => intro v w _; simp
  | cons a l ih =>
    intro v w h
    cases v with
    | nil => simp at h
    | cons b v =>
      simp only [List.cons_append, List.zip_cons_cons]
      rw [ih v w (by simpa using h)]

/-- Claim C9: iterating an `Ions` yields exactly
`min(len(indices), len(ions))` pairs; appending an ion with `index=None`
stores it (the value list grows) but — whenever the index list is not
longer than the value list, as in every state the code constructs — the
appended ion is never yielded, so iteration and the iteration-driven
`Poscar.to_string` output are unchanged. -/
theorem C9_iter_min_append_none_invisible :
    (∀ s : Ions ℚ, (iterPairs s).length = min s.indices.length s.vals.length) ∧
    (∀ (s : Ions ℚ) (x : Ion ℚ), (appendNone s x).vals.length = s.vals.length + 1) ∧
    (∀ (s : Ions ℚ) (x : Ion ℚ), s.indices.length ≤ s.vals.length →
      iterPairs (appendNone s x) = iterPairs s) ∧
    (∀ (p : Poscar ℚ) (x : Ion ℚ), p.ions.indices.length ≤ p.ions.vals.length →
      toStringP { p with ions := appendNone p.ions x } = toStringP p) := by
  refine ⟨?_, ?_, ?_, ?_⟩
  · intro s
    simp [iterPairs, List.length_zip]
  · intro s x
    simp [appendNone]
  · intro s x h
    simp only [iterPairs, appendNone]
    exact zip_append_of_le s.indices s.vals [x] h
  · intro p x h
    have hiter : iterPairs (appendNone p.ions x) = iterPairs p.ions :=
      zip_append_of_le p.ions.indices p.ions.vals [x] h
    simp [toStringP, hiter]

/-- Witness for C9 at a one-ion selection: a `None`-indexed append is
invisible to iteration. -/
theorem C9_witness : iterPairs (appendNone s9 defIon) = iterPairs s9 :=
  C9_iter_min_append_none_invisible.2.2.1 s9 defIon (by decide)

theorem sgn_cases {K : Type} [LinearOrderedField K] (q : K) :
    sgn q = -1 ∨ sgn q = 0 ∨ sgn q = 1 := by
  unfold sgn
  split_ifs <;> simp

theorem sgn_mul_le_one {K : Type} [LinearOrderedField K] (a b : K) :
    sgn a * sgn b ≤ 1 := by
  rcases sgn_cases a with h1 | h1 | h1 <;> rcases sgn_cases b with h2 | h2 | h2 <;>
    rw [h1, h2] <;> norm_num

theorem crossedB_iff {K : Type} [LinearOrderedField K] (v1 v2 : V3 K) :
    crossedB v1 v2 = true ↔
      (sgn v1.x * sgn v2.x ≠ 1 ∨ sgn v1.y * sgn v2.y ≠ 1 ∨ sgn v1.z * sgn v2.z ≠ 1) := by
  unfold crossedB
  rw [decide_eq_true_eq]
  have hx := sgn_mul_le_one v1.x v2.x
  have hy := sgn_mul_le_one v1.y v2.y
  have hz := sgn_mul_le_one v1.z v2.z
  constructor
  · intro h
    by_contra hc
    push_neg at hc
    rw [hc.1, hc.2.1, hc.2.2] at h
    norm_num at h
  · intro h hsum
    rcases h with h | h | h <;> [exact h (by linarith); exact h (by linarith); exact h (by linarith)]

theorem foldl_ite_append_eq_filter_map {α β : Type} (c : α → Bool) (f : α → β) :
    ∀ (l : List α) (acc : List β),
      l.foldl (fun acc x => if c x then acc ++ [f x] else acc) acc
        = acc ++ (l.filter c).map f := by
  intro l
  induction l with
  | nil => intro acc; simp
  | cons a l ih =>
    intro acc
    by_cases h : c a = true
    · simp [List.foldl_cons, h, ih, List.filter_cons]
    · simp only [Bool.not_eq_true] at h
      simp [List.foldl_cons, h, ih, List.filter_cons]

/-- Claim C10: `interpolate` flags ion `i` as boundary-crossing exactly when
the per-axis product of coordinate signs is not `+1` on some axis (the code
tests `sum != 3`, which is equivalent since each product is at most 1); in
particular any ion with an exactly-zero coordinate component in either
anchor is flagged, even though no coordinate changes sign; the flagged
index list used by the frame loop is exactly the filter of the zipped
anchors by this test. -/
theorem C10_boundary_flag_characterization :
    (∀ v1 v2 : V3 ℚ, crossedB v1 v2 = true ↔
      (sgn v1.x * sgn v2.x ≠ 1 ∨ sgn v1.y * sgn v2.y ≠ 1 ∨ sgn v1.z * sgn v2.z ≠ 1)) ∧
    (∀ v1 v2 : V3 ℚ,
      (v1.x = 0 ∨ v1.y = 0 ∨ v1.z = 0 ∨ v2.x = 0 ∨ v2.y = 0 ∨ v2.z = 0) →
      crossedB v1 v2 = true) ∧
    (∀ p1 p2 : Poscar ℚ, boundaryIndices p1 p2 =
      (((iterPairs p1.ions).zip (iterPairs p2.ions)).filter
        (fun pr => crossedB pr.1.2.position pr.2.2.position)).map
        (fun pr => pr.1.1)) := by
  refine ⟨fun v1 v2 => crossedB_iff v1 v2, ?_, ?_⟩
  · intro v1 v2 h
    rw [crossedB_iff]
    have hz : sgn (0 : ℚ) = 0 := by simp [sgn]
    rcases h with h | h | h | h | h | h
    · exact Or.inl (by rw [h, hz]; norm_num)
    · exact Or.inr (Or.inl (by rw [h, hz]; norm_num))
    · exact Or.inr (Or.inr (by rw [h, hz]; norm_num))
    · exact Or.inl (by rw [h, hz]; norm_num)
    · exact Or.inr (Or.inl (by rw [h, hz]; norm_num))
    · exact Or.inr (Or.inr (by rw [h, hz]; norm_num))
  · intro p1 p2
    unfold boundaryIndices
    rw [foldl_ite_append_eq_filter_map]
    simp

/-- Witness for C10: an ion sitting exactly on the boundary plane `x = 0`
in the first anchor is flagged although its coordinate does not change
sign. -/
theorem C10_witness : crossedB (⟨0, 1/2, 1/2⟩ : V3 ℚ) ⟨1/5, 1/2, 1/2⟩ = true :=
  C10_boundary_flag_characterization.2.1 ⟨0, 1/2, 1/2⟩ ⟨1/5, 1/2, 1/2⟩ (Or.inl rfl)

set_option maxHeartbeats 2000000 in
set_option maxRecDepth 8000 in
theorem vacuum_pC8_eval : vacuumRun pC8 ⟨0, 0, 5⟩ = pC8res := by
  norm_num +decide only [vacuumRun, convertToCartesian, convertLoop, pairKI, iterPairs,
    isDirectP, isCartesianP, headLower, pC8, pC8res, defIon, v3zero,
    applyTransformIon, snap3, snapC, snapTol, mulVec3, dot3, transpose3, diag3,
    m3add_eval, v3add_eval, List.enum,
    List.zip_cons_cons, List.zip_nil_left, List.zip_nil_right, List.map_cons, List.map_nil,
    List.enumFrom_cons, List.enumFrom_nil, List.foldl_cons, List.foldl_nil,
    List.getD_cons_zero, List.getD_cons_succ, List.set_cons_zero, List.set_cons_succ,
    List.getD_nil, List.set_nil, reduceIte, ite_true, ite_false]
  norm_num [abs_of_nonneg, abs_of_nonpos, abs_zero]

set_option maxHeartbeats 2000000 in
set_option maxRecDepth 8000 in
theorem vacuum_pC8bad_eval :
    (vacuumRun pC8bad ⟨0, 0, 5⟩).mode = "Cartesian" ∧
    (vacuumRun pC8bad ⟨0, 0, 5⟩).lattice.r2.z = 6 := by
  norm_num +decide only [vacuumRun, convertToCartesian, convertLoop, pairKI, iterPairs,
    isDirectP, isCartesianP, headLower, pC8bad, defIon, v3zero,
    applyTransformIon, snap3, snapC, snapTol, mulVec3, dot3, transpose3, diag3,
    m3add_eval, v3add_eval, List.enum,
    List.zip_cons_cons, List.zip_nil_left, List.zip_nil_right, List.map_cons, List.map_nil,
    List.enumFrom_cons, List.enumFrom_nil, List.foldl_cons, List.foldl_nil,
    List.getD_cons_zero, List.getD_cons_succ, List.set_cons_zero, List.set_cons_succ,
    List.getD_nil, List.set_nil, reduceIte, ite_true, ite_false]

/-- Counterexample to claim C8 as stated: on a Direct-mode structure with
c-axis scale factor 2, `vacuum (0,0,5)` leaves the result in Cartesian mode
(the original position mode is not restored) and adds the full depth 5 to
the diagonal lattice entry instead of `depth / scale = 5/2`. -/
theorem C8_counterexample :
    isDirectP pC8bad = true ∧
    (vacuumRun pC8bad ⟨0, 0, 5⟩).mode ≠ pC8bad.mode ∧
    (vacuumRun pC8bad ⟨0, 0, 5⟩).lattice.r2.z ≠
      pC8bad.lattice.r2.z + 5 / pC8bad.scale.z := by
  refine ⟨by decide, ?_, ?_⟩
  · rw [vacuum_pC8bad_eval.1]
    decide
  · rw [vacuum_pC8bad_eval.2]
    show (6 : ℚ) ≠ 1 + 5 / 2
    norm_num

/-- Claim C8 (amended): `vacuum` converts the structure to Cartesian if
needed, adds `depth[i]` to the `i`-th diagonal entry of the lattice (no
scale-factor division), moves no ion beyond the conversion itself, leaves
the scale factors and species untouched, and leaves the structure in
Cartesian mode rather than restoring the original mode; in particular, on
the cubic unit-scale Direct structure `pC8`, a vacuum of `(0,0,5)` turns
the c-axis row `(0,0,4)` into `(0,0,9)` — a length increase of exactly 5 —
with the cartesian ion positions and scale factors unchanged. -/
theorem C8_vacuum_behavior :
    (∀ (p : Poscar ℚ) (d : V3 ℚ),
      (vacuumRun p d).ions = (convertToCartesian p).ions ∧
      (vacuumRun p d).scale = p.scale ∧
      (vacuumRun p d).species = p.species ∧
      (vacuumRun p d).lattice = (convertToCartesian p).lattice + diag3 d ∧
      (isDirectP p = true → (vacuumRun p d).mode = "Cartesian")) ∧
    ((vacuumRun pC8 ⟨0, 0, 5⟩).lattice.r2 = ⟨0, 0, 9⟩ ∧
      pC8.lattice.r2 = ⟨0, 0, 4⟩ ∧
      (vacuumRun pC8 ⟨0, 0, 5⟩).scale = pC8.scale ∧
      (vacuumRun pC8 ⟨0, 0, 5⟩).ions.vals.map Ion.position =
        [⟨1, 1, 1⟩, ⟨3, 3, 3⟩, ⟨2, 2, 1⟩, ⟨2, 2, 3⟩] ∧
      (vacuumRun pC8 ⟨0, 0, 5⟩).ions.vals.map Ion.position =
        (convertToCartesian pC8).ions.vals.map Ion.position) := by
  constructor
  · intro p d
    refine ⟨rfl, ?_, ?_, rfl, ?_⟩
    · cases h : isCartesianP p <;> simp [vacuumRun, convertToCartesian, h]
    · cases h : isCartesianP p <;> simp [vacuumRun, convertToCartesian, h]
    · intro h
      have hd : headLower p.mode = 'd' := by simpa [isDirectP] using h
      simp [vacuumRun, convertToCartesian, isCartesianP, hd]
  · refine ⟨?_, rfl, ?_, ?_, ?_⟩
    · rw [vacuum_pC8_eval]
      rfl
    · rw [vacuum_pC8_eval]
      rfl
    · rw [vacuum_pC8_eval]
      rfl
    · rfl

/-- Witness for C8: the cubic Direct structure really ends in Cartesian
mode. -/
theorem C8_witness : (vacuumRun pC8 ⟨0, 0, 5⟩).mode = "Cartesian" :=
  (C8_vacuum_behavior.1 pC8 ⟨0, 0, 5⟩).2.2.2.2 (by decide)

theorem foldl_set_getD_eq_map {α : Type} (f : α → α) (d : α) :
    ∀ (post pre : List α),
      (List.range' pre.length post.length).foldl
        (fun vs k => vs.set k (f (vs.getD k d))) (pre ++ post) = pre ++ post.map f := by
  intro post
  induction post with
  | nil => intro pre; simp
  | cons x post ih =>
    intro pre
    rw [List.length_cons, List.range'_succ, List.foldl_cons]
    have hget : (pre ++ x :: post).getD pre.length d = x := by
      rw [List.getD_append_right pre (x :: post) d pre.length le_rfl]
      simp
    have hset : (pre ++ x :: post).set pre.length (f ((pre ++ x :: post).getD pre.length d))
        = (pre ++ [f x]) ++ post := by
      rw [hget, List.set_append]
      simp
    rw [hset]
    have hlen : pre.length + 1 = (pre ++ [f x]).length := by simp
    rw [hlen, ih (pre ++ [f x])]
    simp

theorem zip_self {α : Type} (l : List α) : l.zip l = l.map (fun x => (x, x)) := by
  induction l with
  | nil => rfl
  | cons a l ih => simp [List.zip_cons_cons, ih]

theorem pairKI_master {K : Type} (s : Ions K) (h : s.indices = List.range s.vals.length) :
    pairKI s = (List.range s.vals.length).map (fun k => (k, k)) := by
  unfold pairKI iterPairs
  rw [h]
  rw [List.map_fst_zip _ _ (by simp)]
  rw [List.enum_eq_zip_range]
  rw [List.length_range]
  exact zip_self _

theorem convertLoop_master {K : Type} [LinearOrderedField K] (A : M3 K) (s : Ions K)
    (h : s.indices = List.range s.vals.length) :
    convertLoop A s = ⟨s.vals.map (applyTransformIon A), s.indices⟩ := by
  have hfold := foldl_set_getD_eq_map (applyTransformIon A) (defIon : Ion K) s.vals []
  simp only [List.nil_append, List.length_nil] at hfold
  rw [← List.range_eq_range'] at hfold
  simp only [convertLoop, pairKI_master s h, List.foldl_map]
  rw [Ions.mk.injEq]
  exact ⟨hfold, rfl⟩

set_option maxHeartbeats 1000000 in
theorem mulVec3_inv3_cancel_left {K : Type} [Field K] (M : M3 K) (hd : det3 M ≠ 0)
    (v : V3 K) : mulVec3 (inv3 M) (mulVec3 M v) = v := by
  rcases M with ⟨⟨a, b, c⟩, ⟨d, e, f⟩, ⟨g, h, i⟩⟩
  rcases v with ⟨x, y, z⟩
  simp only [inv3, mulVec3, dot3, det3] at *
  rw [V3.mk.injEq]
  refine ⟨?_, ?_, ?_⟩ <;> field_simp <;> ring

set_option maxHeartbeats 1000000 in
theorem mulVec3_inv3_cancel_right {K : Type} [Field K] (M : M3 K) (hd : det3 M ≠ 0)
    (v : V3 K) : mulVec3 M (mulVec3 (inv3 M) v) = v := by
  rcases M with ⟨⟨a, b, c⟩, ⟨d, e, f⟩, ⟨g, h, i⟩⟩
  rcases v with ⟨x, y, z⟩
  simp only [inv3, mulVec3, dot3, det3] at *
  rw [V3.mk.injEq]
  refine ⟨?_, ?_, ?_⟩ <;> field_simp <;> ring

theorem det3_transpose3 {K : Type} [CommRing K] (M : M3 K) :
    det3 (transpose3 M) = det3 M := by
  rcases M with ⟨⟨a, b, c⟩, ⟨d, e, f⟩, ⟨g, h, i⟩⟩
  simp only [det3, transpose3]
  ring

theorem direct_not_cartesian {K : Type} {p : Poscar K} (h : isDirectP p = true) :
    isCartesianP p = false := by
  simp only [isDirectP, beq_iff_eq] at h
  simp [isCartesianP, h]

theorem cartesian_not_direct {K : Type} {p : Poscar K} (h : isCartesianP p = true) :
    isDirectP p = false := by
  simp only [isCartesianP, Bool.or_eq_true, beq_iff_eq] at h
  rcases h with h | h <;> simp [isDirectP, h]

theorem snap3_id {K : Type} [LinearOrderedField K] {v : V3 K}
    (hx : snapTol < |v.x|) (hy : snapTol < |v.y|) (hz : snapTol < |v.z|) :
    snap3 snapTol v = v := by
  rcases v with ⟨x, y, z⟩
  simp only [snap3, snapC]
  rw [if_pos hx, if_pos hy, if_pos hz]

theorem snapC_dist {K : Type} [LinearOrderedField K] (x : K) :
    |snapC snapTol x - x| ≤ snapTol := by
  unfold snapC
  split_ifs with h
  · simp
    unfold snapTol
    norm_num
  · push_neg at h
    rw [zero_sub, abs_neg]
    exact h

set_option maxHeartbeats 2000000 in
theorem toggle_twice_direct (p : Poscar ℚ)
    (hd : isDirectP p = true)
    (hm : p.ions.indices = List.range p.ions.vals.length)
    (hdet : det3 p.lattice ≠ 0)
    (hsnap : ∀ ion ∈ p.ions.vals,
      snapTol < |(mulVec3 (transpose3 p.lattice) ion.position).x| ∧
      snapTol < |(mulVec3 (transpose3 p.lattice) ion.position).y| ∧
      snapTol < |(mulVec3 (transpose3 p.lattice) ion.position).z|) :
    ∃ q, (toggleMode p).bind toggleMode = some q ∧
      ∀ k : ℕ,
        |(q.ions.vals.getD k defIon).position.x -
          (p.ions.vals.getD k defIon).position.x| ≤ snapTol ∧
        |(q.ions.vals.getD k defIon).position.y -
          (p.ions.vals.getD k defIon).position.y| ≤ snapTol ∧
        |(q.ions.vals.getD k defIon).position.z -
          (p.ions.vals.getD k defIon).position.z| ≤ snapTol := by
  have hc : isCartesianP p = false := direct_not_cartesian hd
  have h1 : toggleMode p = some (convertToCartesian p) := by
    simp [toggleMode, hd]
  have hconv1 : convertToCartesian p =
      { p with ions := ⟨p.ions.vals.map (applyTransformIon (transpose3 p.lattice)),
          p.ions.indices⟩, mode := "Cartesian" } := by
    rw [convertToCartesian, if_neg (by simp [hc])]
    rw [convertLoop_master (transpose3 p.lattice) p.ions hm]
  have key : (toggleMode p).bind toggleMode
      = some (convertToDirect (convertToCartesian p)) := by
    rw [h1, Option.some_bind, hconv1]
    simp +decide [toggleMode, isDirectP, isCartesianP, headLower]
  have hm2 : (Ions.mk (p.ions.vals.map (applyTransformIon (transpose3 p.lattice)))
        p.ions.indices).indices =
      List.range (Ions.mk (p.ions.vals.map (applyTransformIon (transpose3 p.lattice)))
        p.ions.indices).vals.length := by
    simp [hm]
  have hvals : (convertToDirect (convertToCartesian p)).ions.vals
      = p.ions.vals.map (fun ion =>
          applyTransformIon (inv3 (transpose3 p.lattice))
            (applyTransformIon (transpose3 p.lattice) ion)) := by
    rw [hconv1, convertToDirect, if_neg (by simp +decide [isDirectP, headLower])]
    rw [convertLoop_master _ _ hm2]
    simp [List.map_map, Function.comp]
  refine ⟨convertToDirect (convertToCartesian p), key, ?_⟩
  intro k
  by_cases hk : k < p.ions.vals.length
  · have hk2 : k < ((convertToDirect (convertToCartesian p)).ions.vals).length := by
      rw [hvals, List.length_map]
      exact hk
    have e1 : (convertToDirect (convertToCartesian p)).ions.vals.getD k defIon
        = applyTransformIon (inv3 (transpose3 p.lattice))
            (applyTransformIon (transpose3 p.lattice) (p.ions.vals[k])) := by
      rw [List.getD_eq_getElem _ _ hk2]
      simp only [hvals]
      rw [List.getElem_map]
    have e2 : p.ions.vals.getD k defIon = p.ions.vals[k] := List.getD_eq_getElem _ _ hk
    obtain ⟨hsx, hsy, hsz⟩ := hsnap (p.ions.vals[k]) (List.getElem_mem hk)
    have happ1 : applyTransformIon (transpose3 p.lattice) (p.ions.vals[k])
        = { p.ions.vals[k] with
            position := mulVec3 (transpose3 p.lattice) (p.ions.vals[k]).position } := by
      unfold applyTransformIon
      rw [snap3_id hsx hsy hsz]
    have hdet2 : det3 (transpose3 p.lattice) ≠ 0 := by
      rw [det3_transpose3]
      exact hdet
    have happ2 : applyTransformIon (inv3 (transpose3 p.lattice))
        (applyTransformIon (transpose3 p.lattice) (p.ions.vals[k]))
        = { p.ions.vals[k] with
            position := snap3 snapTol ((p.ions.vals[k]).position) } := by
      rw [happ1]
      unfold applyTransformIon
      rw [mulVec3_inv3_cancel_left _ hdet2]
    rw [e1, e2, happ2]
    exact ⟨snapC_dist _, snapC_dist _, snapC_dist _⟩
  · have hk' : p.ions.vals.length ≤ k := le_of_not_lt hk
    have hk2 : ((convertToDirect (convertToCartesian p)).ions.vals).length ≤ k := by
      rw [hvals, List.length_map]
      exact hk'
    rw [List.getD_eq_default _ _ hk', List.getD_eq_default _ _ hk2]
    simp [defIon, v3zero]
    unfold snapTol
    norm_num

set_option maxHeartbeats 2000000 in
theorem toggle_twice_cartesian (p : Poscar ℚ)
    (hd : isCartesianP p = true)
    (hm : p.ions.indices = List.range p.ions.vals.length)
    (hdet : det3 p.lattice ≠ 0)
    (hsnap : ∀ ion ∈ p.ions.vals,
      snapTol < |(mulVec3 (inv3 (transpose3 p.lattice)) ion.position).x| ∧
      snapTol < |(mulVec3 (inv3 (transpose3 p.lattice)) ion.position).y| ∧
      snapTol < |(mulVec3 (inv3 (transpose3 p.lattice)) ion.position).z|) :
    ∃ q, (toggleMode p).bind toggleMode = some q ∧
      ∀ k : ℕ,
        |(q.ions.vals.getD k defIon).position.x -
          (p.ions.vals.getD k defIon).position.x| ≤ snapTol ∧
        |(q.ions.vals.getD k defIon).position.y -
          (p.ions.vals.getD k defIon).position.y| ≤ snapTol ∧
        |(q.ions.vals.getD k defIon).position.z -
          (p.ions.vals.getD k defIon).position.z| ≤ snapTol := by
  have hc : isDirectP p = false := cartesian_not_direct hd
  have h1 : toggleMode p = some (convertToDirect p) := by
    simp [toggleMode, hd, hc]
  have hconv1 : convertToDirect p =
      { p with ions := ⟨p.ions.vals.map (applyTransformIon (inv3 (transpose3 p.lattice))),
          p.ions.indices⟩, mode := "Direct" } := by
    rw [convertToDirect, if_neg (by simp [hc])]
    rw [convertLoop_master (inv3 (transpose3 p.lattice)) p.ions hm]
  have key : (toggleMode p).bind toggleMode
      = some (convertToCartesian (convertToDirect p)) := by
    rw [h1, Option.some_bind, hconv1]
    simp +decide [toggleMode, isDirectP, isCartesianP, headLower]
  have hm2 : (Ions.mk (p.ions.vals.map (applyTransformIon (inv3 (transpose3 p.lattice))))
        p.ions.indices).indices =
      List.range (Ions.mk (p.ions.vals.map (applyTransformIon (inv3 (transpose3 p.lattice))))
        p.ions.indices).vals.length := by
    simp [hm]
  have hvals : (convertToCartesian (convertToDirect p)).ions.vals
      = p.ions.vals.map (fun ion =>
          applyTransformIon (transpose3 p.lattice)
            (applyTransformIon (inv3 (transpose3 p.lattice)) ion)) := by
    rw [hconv1, convertToCartesian, if_neg (by simp +decide [isCartesianP, headLower])]
    rw [convertLoop_master _ _ hm2]
    simp [List.map_map, Function.comp]
  refine ⟨convertToCartesian (convertToDirect p), key, ?_⟩
  intro k
  by_cases hk : k < p.ions.vals.length
  · have hk2 : k < ((convertToCartesian (convertToDirect p)).ions.vals).length := by
      rw [hvals, List.length_map]
      exact hk
    have e1 : (convertToCartesian (convertToDirect p)).ions.vals.getD k defIon
        = applyTransformIon (transpose3 p.lattice)
            (applyTransformIon (inv3 (transpose3 p.lattice)) (p.ions.vals[k])) := by
      rw [List.getD_eq_getElem _ _ hk2]
      simp only [hvals]
      rw [List.getElem_map]
    have e2 : p.ions.vals.getD k defIon = p.ions.vals[k] := List.getD_eq_getElem _ _ hk
    obtain ⟨hsx, hsy, hsz⟩ := hsnap (p.ions.vals[k]) (List.getElem_mem hk)
    have happ1 : applyTransformIon (inv3 (transpose3 p.lattice)) (p.ions.vals[k])
        = { p.ions.vals[k] with
            position := mulVec3 (inv3 (transpose3 p.lattice)) (p.ions.vals[k]).position } := by
      unfold applyTransformIon
      rw [snap3_id hsx hsy hsz]
    have hdet2 : det3 (transpose3 p.lattice) ≠ 0 := by
      rw [det3_transpose3]
      exact hdet
    have happ2 : applyTransformIon (transpose3 p.lattice)
        (applyTransformIon (inv3 (transpose3 p.lattice)) (p.ions.vals[k]))
        = { p.ions.vals[k] with
            position := snap3 snapTol ((p.ions.vals[k]).position) } := by
      rw [happ1]
      unfold applyTransformIon
      rw [mulVec3_inv3_cancel_right _ hdet2]
    rw [e1, e2, happ2]
    exact ⟨snapC_dist _, snapC_dist _, snapC_dist _⟩
  · have hk' : p.ions.vals.length ≤ k := le_of_not_lt hk
    have hk2 : ((convertToCartesian (convertToDirect p)).ions.vals).length ≤ k := by
      rw [hvals, List.length_map]
      exact hk'
    rw [List.getD_eq_default _ _ hk', List.getD_eq_default _ _ hk2]
    simp [defIon, v3zero]
    unfold snapTol
    norm_num

set_option maxHeartbeats 2000000 in
set_option maxRecDepth 8000 in
theorem toggle_twice_pC3bad : (toggleMode pC3bad).bind toggleMode = some pC3badq := by
  norm_num +decide only [toggleMode, convertToDirect, convertToCartesian, convertLoop,
    pairKI, iterPairs, isDirectP, isCartesianP, headLower, pC3bad, pC3badq, defIon, v3zero,
    applyTransformIon, snap3, snapC, snapTol, mulVec3, dot3, transpose3, inv3, det3,
    List.enum, v3add_eval, v3sub_eval,
    List.zip_cons_cons, List.zip_nil_left, List.zip_nil_right, List.map_cons, List.map_nil,
    List.enumFrom_cons, List.enumFrom_nil, List.foldl_cons, List.foldl_nil,
    List.getD_cons_zero, List.getD_cons_succ, List.set_cons_zero, List.set_cons_succ,
    List.getD_nil, List.set_nil, reduceIte, ite_true, ite_false,
    Option.some_bind, Option.none_bind]
  norm_num [abs_of_nonneg, abs_of_nonpos, abs_zero]

/-- Counterexample to claim C3 as stated: on `pC3bad` (lattice constant
`1e-6` on the a-axis, ion at direct x `1/200`), toggling the mode twice
snaps the intermediate cartesian x-coordinate `5e-9` to zero, and the
recovered direct x-coordinate `0` differs from the original `1/200` by far
more than the 1e-8 snap tolerance. -/
theorem C3_counterexample :
    (toggleMode pC3bad).bind toggleMode = some pC3badq ∧
    snapTol < |(pC3badq.ions.vals.getD 0 defIon).position.x -
      (pC3bad.ions.vals.getD 0 defIon).position.x| := by
  refine ⟨toggle_twice_pC3bad, ?_⟩
  show snapTol < |(0 : ℚ) - 1/200|
  unfold snapTol
  rw [zero_sub, abs_neg, abs_of_nonneg (by norm_num : (0 : ℚ) ≤ 1/200)]
  norm_num

/-- Claim C3 (amended): `_convert_to_direct` and `_convert_to_cartesian`
are idempotent; toggling twice restores the position mode whenever the mode
is recognized; and — for a master-list Poscar with invertible lattice whose
intermediate transformed coordinates all clear the 1e-8 snap tolerance —
toggling twice returns every ion position to within that tolerance of its
original value (without the no-snap proviso the deviation can exceed the
tolerance, see the counterexample). -/
theorem C3_convert_idempotent_toggle_tolerance :
    (∀ p : Poscar ℚ, convertToDirect (convertToDirect p) = convertToDirect p) ∧
    (∀ p : Poscar ℚ, convertToCartesian (convertToCartesian p) = convertToCartesian p) ∧
    (∀ p : Poscar ℚ, isDirectP p = true ∨ isCartesianP p = true →
      ∃ q, (toggleMode p).bind toggleMode = some q ∧
        isDirectP q = isDirectP p ∧ isCartesianP q = isCartesianP p) ∧
    (∀ p : Poscar ℚ, isDirectP p = true →
      p.ions.indices = List.range p.ions.vals.length →
      det3 p.lattice ≠ 0 →
      (∀ ion ∈ p.ions.vals,
        snapTol < |(mulVec3 (transpose3 p.lattice) ion.position).x| ∧
        snapTol < |(mulVec3 (transpose3 p.lattice) ion.position).y| ∧
        snapTol < |(mulVec3 (transpose3 p.lattice) ion.position).z|) →
      ∃ q, (toggleMode p).bind toggleMode = some q ∧
        ∀ k : ℕ,
          |(q.ions.vals.getD k defIon).position.x -
            (p.ions.vals.getD k defIon).position.x| ≤ snapTol ∧
          |(q.ions.vals.getD k defIon).position.y -
            (p.ions.vals.getD k defIon).position.y| ≤ snapTol ∧
          |(q.ions.vals.getD k defIon).position.z -
            (p.ions.vals.getD k defIon).position.z| ≤ snapTol) ∧
    (∀ p : Poscar ℚ, isCartesianP p = true →
      p.ions.indices = List.range p.ions.vals.length →
      det3 p.lattice ≠ 0 →
      (∀ ion ∈ p.ions.vals,
        snapTol < |(mulVec3 (inv3 (transpose3 p.lattice)) ion.position).x| ∧
        snapTol < |(mulVec3 (inv3 (transpose3 p.lattice)) ion.position).y| ∧
        snapTol < |(mulVec3 (inv3 (transpose3 p.lattice)) ion.position).z|) →
      ∃ q, (toggleMode p).bind toggleMode = some q ∧
        ∀ k : ℕ,
          |(q.ions.vals.getD k defIon).position.x -
            (p.ions.vals.getD k defIon).position.x| ≤ snapTol ∧
          |(q.ions.vals.getD k defIon).position.y -
            (p.ions.vals.getD k defIon).position.y| ≤ snapTol ∧
          |(q.ions.vals.getD k defIon).position.z -
            (p.ions.vals.getD k defIon).position.z| ≤ snapTol) := by
  refine ⟨?_, ?_, ?_, toggle_twice_direct, toggle_twice_cartesian⟩
  · intro p
    have hfix : ∀ q : Poscar ℚ, isDirectP q = true → convertToDirect q = q := by
      intro q hq
      simp [convertToDirect, hq]
    by_cases h : isDirectP p = true
    · simp only [hfix p h]
    · simp only [Bool.not_eq_true] at h
      have h2 : isDirectP (convertToDirect p) = true := by
        rw [convertToDirect, if_neg (by simp [h])]
        simp +decide [isDirectP, headLower]
      exact hfix _ h2
  · intro p
    have hfix : ∀ q : Poscar ℚ, isCartesianP q = true → convertToCartesian q = q := by
      intro q hq
      simp [convertToCartesian, hq]
    by_cases h : isCartesianP p = true
    · simp only [hfix p h]
    · simp only [Bool.not_eq_true] at h
      have h2 : isCartesianP (convertToCartesian p) = true := by
        rw [convertToCartesian, if_neg (by simp [h])]
        simp +decide [isCartesianP, headLower]
      exact hfix _ h2
  · intro p h
    rcases h with h | h
    · have hc := direct_not_cartesian h
      have hmode1 : (convertToCartesian p).mode = "Cartesian" := by
        rw [convertToCartesian, if_neg (by simp [hc])]
      have h1 : toggleMode p = some (convertToCartesian p) := by
        simp [toggleMode, h]
      have hd1 : isDirectP (convertToCartesian p) = false := by
        simp +decide [isDirectP, headLower, hmode1]
      have hc1 : isCartesianP (convertToCartesian p) = true := by
        simp +decide [isCartesianP, headLower, hmode1]
      have h2 : toggleMode (convertToCartesian p)
          = some (convertToDirect (convertToCartesian p)) := by
        simp [toggleMode, hd1, hc1]
      have hmode2 : (convertToDirect (convertToCartesian p)).mode = "Direct" := by
        rw [convertToDirect, if_neg (by simp [hd1])]
      refine ⟨_, by rw [h1, Option.some_bind, h2], ?_, ?_⟩
      · rw [h]
        simp +decide [isDirectP, headLower, hmode2]
      · rw [hc]
        simp +decide [isCartesianP, headLower, hmode2]
    · have hc := cartesian_not_direct h
      have hmode1 : (convertToDirect p).mode = "Direct" := by
        rw [convertToDirect, if_neg (by simp [hc])]
      have h1 : toggleMode p = some (convertToDirect p) := by
        simp [toggleMode, h, hc]
      have hd1 : isDirectP (convertToDirect p) = true := by
        simp +decide [isDirectP, headLower, hmode1]
      have h2 : toggleMode (convertToDirect p)
          = some (convertToCartesian (convertToDirect p)) := by
        simp [toggleMode, hd1]
      have hmode2 : (convertToCartesian (convertToDirect p)).mode = "Cartesian" := by
        rw [convertToCartesian, if_neg (by simp +decide [isCartesianP, headLower, hmode1])]
      refine ⟨_, by rw [h1, Option.some_bind, h2], ?_, ?_⟩
      · rw [hc]
        simp +decide [isDirectP, headLower, hmode2]
      · rw [h]
        simp +decide [isCartesianP, headLower, hmode2]

/-- Witness for C3 at `pC3one`. -/
theorem C3_witness :
    ∃ q, (toggleMode pC3one).bind toggleMode = some q ∧
      ∀ k : ℕ,
        |(q.ions.vals.getD k defIon).position.x -
          (pC3one.ions.vals.getD k defIon).position.x| ≤ snapTol ∧
        |(q.ions.vals.getD k defIon).position.y -
          (pC3one.ions.vals.getD k defIon).position.y| ≤ snapTol ∧
        |(q.ions.vals.getD k defIon).position.z -
          (pC3one.ions.vals.getD k defIon).position.z| ≤ snapTol := by
  apply C3_convert_idempotent_toggle_tolerance.2.2.2.1 pC3one
  · decide
  · decide
  · show det3 pC3one.lattice ≠ 0
    norm_num [det3, pC3one]
  · intro ion hion
    have hmem : ion ∈ [(⟨⟨1/2, 1/3, 1/4⟩, "Si", (true, true, true), v3zero⟩ : Ion ℚ)] := hion
    rw [List.mem_singleton] at hmem
    subst hmem
    refine ⟨?_, ?_, ?_⟩ <;>
      norm_num [mulVec3, dot3, transpose3, pC3one, snapTol, v3zero] <;>
      norm_num [abs_of_nonneg, abs_of_nonpos, abs_zero]

theorem foldl_appendIdx {K : Type} {α : Type} (g : α → Ion K) (hf : α → ℕ) :
    ∀ (zs : List α) (acc : Ions K),
      zs.foldl (fun acc pr => appendIdx acc (g pr) (hf pr)) acc
        = ⟨acc.vals ++ zs.map g, acc.indices ++ zs.map hf⟩ := by
  intro zs
  induction zs with
  | nil => intro acc; simp [Ions.mk.injEq]
  | cons a zs ih =>
    intro acc
    rw [List.foldl_cons, ih]
    simp [appendIdx]

theorem interpFrameIons_eval {K : Type} [LinearOrderedField K] (p1 p2 : Poscar K)
    (images : ℕ) (selDyn : Bool) (bres dres : Option String) (boundary : List ℕ) (i : ℕ) :
    interpFrameIons p1 p2 images selDyn bres dres boundary i
      = ⟨((iterPairs p1.ions).zip (iterPairs p2.ions)).map
          (fun pr => interpIon images selDyn bres dres boundary i pr.1.1 pr.1.2 pr.2.2),
        ((iterPairs p1.ions).zip (iterPairs p2.ions)).map (fun pr => pr.1.1)⟩ := by
  unfold interpFrameIons
  rw [foldl_appendIdx]
  simp

theorem vsmul_zero_add {K : Type} [LinearOrderedField K] (a v : V3 K) :
    a + vsmul 0 v = a := by
  rcases a with ⟨ax, ay, az⟩
  rcases v with ⟨vx, vy, vz⟩
  simp [vsmul, v3add_eval]

theorem vsmul_one_cancel {K : Type} [LinearOrderedField K] (a b : V3 K) :
    a + vsmul 1 (b - a) = b := by
  rcases a with ⟨ax, ay, az⟩
  rcases b with ⟨bx, by2, bz⟩
  simp only [vsmul, v3add_eval, v3sub_eval]
  rw [V3.mk.injEq]
  refine ⟨by ring, by ring, by ring⟩

set_option maxHeartbeats 2000000 in
/-- C6: with matching modes and ion counts and no boundary-flagged ions,
`interpolate` succeeds and returns `images + 2` frames whose ion `k` in frame
`i` sits at `p1 + (i / (images + 1)) * (p2 - p1)`; in particular frame `0`
reproduces the first structure's positions and frame `images + 1` the
second's. -/
theorem C6_interpolate_linear_frames :
    ∀ (p1 p2 : Poscar ℚ) (images : ℕ) (sd : Bool) (br dr : Option String),
      p1.mode = p2.mode →
      p1.ions.vals.length = p2.ions.vals.length →
      p1.ions.indices.length = p1.ions.vals.length →
      p2.ions.indices.length = p2.ions.vals.length →
      boundaryIndices p1 p2 = [] →
      ∃ F, interpolate p1 p2 images sd br dr = Except.ok F ∧
        F.length = images + 2 ∧
        (∀ i, i < images + 2 → ∀ k, k < p1.ions.vals.length →
          ((F.getD i p1).ions.vals.getD k defIon).position =
            (p1.ions.vals.getD k defIon).position +
              vsmul ((i : ℚ) / ((images : ℚ) + 1))
                ((p2.ions.vals.getD k defIon).position -
                  (p1.ions.vals.getD k defIon).position)) ∧
        (∀ k, k < p1.ions.vals.length →
          ((F.getD 0 p1).ions.vals.getD k defIon).position =
            (p1.ions.vals.getD k defIon).position) ∧
        (∀ k, k < p1.ions.vals.length →
          ((F.getD (images + 1) p1).ions.vals.getD k defIon).position =
            (p2.ions.vals.getD k defIon).position) := by
  intro p1 p2 images sd br dr hmode hlen hm1 hm2 hnb
  have hrun : interpolate p1 p2 images sd br dr
      = Except.ok ((List.range (images + 2)).map (fun i =>
          ({ (if sd then p1 else { p1 with selective_dynamics := false }) with
            ions := interpFrameIons p1 p2 images sd br dr [] i } : Poscar ℚ))) := by
    unfold interpolate
    rw [if_neg (by simp [hmode])]
    simp only []
    rw [if_neg (by simp [hlen]), hnb]
  have hzlen : (((iterPairs p1.ions).zip (iterPairs p2.ions))).length
      = p1.ions.vals.length := by
    simp only [iterPairs, List.length_zip, hm1, hm2, hlen]
    omega
  have hgetF : ∀ i, i < images + 2 →
      ((List.range (images + 2)).map (fun i =>
        ({ (if sd then p1 else { p1 with selective_dynamics := false }) with
          ions := interpFrameIons p1 p2 images sd br dr [] i } : Poscar ℚ))).getD i p1
      = { (if sd then p1 else { p1 with selective_dynamics := false }) with
          ions := interpFrameIons p1 p2 images sd br dr [] i } := by
    intro i hi
    rw [List.getD_eq_getElem _ _ (by simpa using hi)]
    rw [List.getElem_map, List.getElem_range]
  have hkey : ∀ i, i < images + 2 → ∀ k, (hk : k < p1.ions.vals.length) →
      ((((List.range (images + 2)).map (fun i =>
        ({ (if sd then p1 else { p1 with selective_dynamics := false }) with
          ions := interpFrameIons p1 p2 images sd br dr [] i } : Poscar ℚ))).getD i
            p1).ions.vals.getD k defIon).position =
        (p1.ions.vals.getD k defIon).position +
          vsmul ((i : ℚ) / ((images : ℚ) + 1))
            ((p2.ions.vals.getD k defIon).position -
              (p1.ions.vals.getD k defIon).position) := by
    intro i hi k hk
    rw [hgetF i hi]
    have hk1 : k < p1.ions.indices.length := by omega
    have hk2 : k < p2.ions.vals.length := by omega
    have hk2i : k < p2.ions.indices.length := by omega
    have hkz : k < (((iterPairs p1.ions).zip (iterPairs p2.ions))).length := by
      rw [hzlen]
      exact hk
    have hkm : k < (((iterPairs p1.ions).zip (iterPairs p2.ions)).map
        (fun pr => interpIon images sd br dr [] i pr.1.1 pr.1.2 pr.2.2)).length := by
      simpa using hkz
    show ((interpFrameIons p1 p2 images sd br dr [] i).vals.getD k defIon).position = _
    rw [interpFrameIons_eval]
    show ((((iterPairs p1.ions).zip (iterPairs p2.ions)).map
        (fun pr => interpIon images sd br dr [] i pr.1.1 pr.1.2 pr.2.2)).getD k
          defIon).position = _
    rw [List.getD_eq_getElem _ _ hkm, List.getElem_map]
    have hz1 : k < (iterPairs p1.ions).length := by
      simp only [iterPairs, List.length_zip]
      omega
    have hz2 : k < (iterPairs p2.ions).length := by
      simp only [iterPairs, List.length_zip]
      omega
    rw [List.getElem_zip]
    show (interpIon images sd br dr [] i ((iterPairs p1.ions)[k]).1
        ((iterPairs p1.ions)[k]).2 ((iterPairs p2.ions)[k]).2).position = _
    have e1 : (iterPairs p1.ions)[k] = (p1.ions.indices[k], p1.ions.vals[k]) := by
      simp only [iterPairs]
      rw [List.getElem_zip]
    have e2 : (iterPairs p2.ions)[k] = (p2.ions.indices[k], p2.ions.vals[k]) := by
      simp only [iterPairs]
      rw [List.getElem_zip]
    rw [e1, e2]
    unfold interpIon
    simp only [List.not_mem_nil, if_false, ite_false]
    rw [List.getD_eq_getElem _ _ hk, List.getD_eq_getElem _ _ hk2]
  refine ⟨_, hrun, by simp, hkey, ?_, ?_⟩
  · intro k hk
    rw [hkey 0 (by omega) k hk]
    push_cast
    rw [zero_div, vsmul_zero_add]
  · intro k hk
    rw [hkey (images + 1) (by omega) k hk]
    have hne : ((images : ℚ) + 1) ≠ 0 := by positivity
    push_cast
    rw [div_self hne, vsmul_one_cancel]

/-- Witness: concrete two-structure interpolation with 3 images where the
hypotheses of `C6_interpolate_linear_frames` hold. -/
theorem C6_witness :
    boundaryIndices pC6a pC6b = [] ∧
    (∃ F, interpolate pC6a pC6b 3 true none none = Except.ok F ∧
      F.length = 3 + 2 ∧
      (∀ i, i < 3 + 2 → ∀ k, k < pC6a.ions.vals.length →
        ((F.getD i pC6a).ions.vals.getD k defIon).position =
          (pC6a.ions.vals.getD k defIon).position +
            vsmul ((i : ℚ) / (((3 : ℕ) : ℚ) + 1))
              ((pC6b.ions.vals.getD k defIon).position -
                (pC6a.ions.vals.getD k defIon).position)) ∧
      (∀ k, k < pC6a.ions.vals.length →
        ((F.getD 0 pC6a).ions.vals.getD k defIon).position =
          (pC6a.ions.vals.getD k defIon).position) ∧
      (∀ k, k < pC6a.ions.vals.length →
        ((F.getD (3 + 1) pC6a).ions.vals.getD k defIon).position =
          (pC6b.ions.vals.getD k defIon).position)) := by
  have hb : boundaryIndices pC6a pC6b = [] := by
    norm_num [boundaryIndices, iterPairs, pC6a, pC6b, crossedB, sgn]
  exact ⟨hb, C6_interpolate_linear_frames pC6a pC6b 3 true none none rfl rfl rfl rfl hb⟩

set_option maxHeartbeats 4000000 in
set_option maxRecDepth 8000 in
theorem hcC5 : getCenteredAround (pC5 : Poscar ℝ) ⟨5, 5, 5⟩ "Cartesian" = some pC5 := by
  norm_num +decide only [getCenteredAround, constrainP, constrainLoop,
    convertToCartesian, convertToDirect, convertLoop, toggleMode, pairKI, iterPairs,
    isDirectP, isCartesianP, headLower, pC5, ionAt, latC5, defIon, v3zero,
    inv3, transpose3, det3, applyTransformIon, mulVec3, dot3, snap3, snapC, snapTol,
    fracV, shiftV, shiftC, sgn, List.enum, v3add_eval, v3sub_eval,
    List.zip_cons_cons, List.zip_nil_left, List.zip_nil_right, List.map_cons, List.map_nil,
    List.enumFrom_cons, List.enumFrom_nil, List.foldl_cons, List.foldl_nil,
    List.getD_cons_zero, List.getD_cons_succ, List.set_cons_zero, List.set_cons_succ,
    List.getD_nil, List.set_nil, Option.getD_some, Option.getD_none, reduceIte,
    ite_true, ite_false, Option.some_bind, Option.none_bind,
    abs_of_nonneg, abs_of_nonpos, abs_zero]

theorem pC5_conv : convertToCartesian (pC5 : Poscar ℝ) = pC5 := by
  rw [convertToCartesian, if_pos]
  rfl

theorem pC5_mode : (pC5 : Poscar ℝ).mode = "Cartesian" := rfl

theorem pC5_getD0 : (pC5 : Poscar ℝ).ions.vals.getD 0 defIon = ionAt ⟨5, 5, 5⟩ := rfl

theorem pC5_getD1 : (pC5 : Poscar ℝ).ions.vals.getD 1 defIon = ionAt ⟨6, 5, 5⟩ := rfl

theorem pC5_getD2 : (pC5 : Poscar ℝ).ions.vals.getD 2 defIon = ionAt ⟨4, 5, 5⟩ := rfl

theorem pC5_getD3 : (pC5 : Poscar ℝ).ions.vals.getD 3 defIon = ionAt ⟨5, 6, 5⟩ := rfl

theorem ionAt_pos (v : V3 ℝ) : (ionAt v).position = v := rfl

set_option maxHeartbeats 1000000 in
theorem angle102 : bondAngle pC5 1 0 2 false = some Real.pi := by
  simp only [bondAngle, pC5_conv, pC5_mode, pC5_getD0, pC5_getD1, pC5_getD2, ionAt_pos,
    hcC5, Option.map_some', reduceIte]
  norm_num [vdiv, sumSq, dot3, cross3, v3sub_eval, Real.sqrt_one, Real.sqrt_zero,
    Real.arcsin_zero]

set_option maxHeartbeats 1000000 in
theorem angle102d : bondAngle pC5 1 0 2 true = some 180 := by
  simp only [bondAngle, pC5_conv, pC5_mode, pC5_getD0, pC5_getD1, pC5_getD2, ionAt_pos,
    hcC5, Option.map_some', reduceIte]
  norm_num [vdiv, sumSq, dot3, cross3, v3sub_eval, Real.sqrt_one, Real.sqrt_zero,
    Real.arcsin_zero]
  field_simp

set_option maxHeartbeats 1000000 in
theorem angle103 : bondAngle pC5 1 0 3 false = some (Real.pi / 2) := by
  simp only [bondAngle, pC5_conv, pC5_mode, pC5_getD0, pC5_getD1, pC5_getD3, ionAt_pos,
    hcC5, Option.map_some', reduceIte]
  norm_num [vdiv, sumSq, dot3, cross3, v3sub_eval, Real.sqrt_one, Real.sqrt_zero,
    Real.arcsin_one]

set_option maxHeartbeats 1000000 in
theorem angle103d : bondAngle pC5 1 0 3 true = some 90 := by
  simp only [bondAngle, pC5_conv, pC5_mode, pC5_getD0, pC5_getD1, pC5_getD3, ionAt_pos,
    hcC5, Option.map_some', reduceIte]
  norm_num [vdiv, sumSq, dot3, cross3, v3sub_eval, Real.sqrt_one, Real.sqrt_zero,
    Real.arcsin_one]
  field_simp
  ring

theorem sumSq_cross_comm (u v : V3 ℝ) : sumSq (cross3 u v) = sumSq (cross3 v u) := by
  rcases u with ⟨a, b, c⟩
  rcases v with ⟨d, e, f⟩
  simp only [cross3, sumSq, dot3]
  ring

theorem dot3_comm (u v : V3 ℝ) : dot3 u v = dot3 v u := by
  rcases u with ⟨a, b, c⟩
  rcases v with ⟨d, e, f⟩
  simp only [dot3]
  ring

theorem bondAngle_swap (p : Poscar ℝ) (ia ic ib : ℕ) (d : Bool) :
    bondAngle p ia ic ib d = bondAngle p ib ic ia d := by
  simp only [bondAngle]
  congr 1
  funext pcc
  rw [dot3_comm, sumSq_cross_comm]

theorem bondAngle_quadrant (p : Poscar ℝ) (ia ic ib : ℕ) (pcc : Poscar ℝ)
    (h : getCenteredAround (convertToCartesian p)
        ((convertToCartesian p).ions.vals.getD ic defIon).position
        (convertToCartesian p).mode = some pcc) :
    bondAngle p ia ic ib false =
      some (specQuadAngle
        (specUnit ((pcc.ions.vals.getD ia defIon).position -
          ((convertToCartesian p).ions.vals.getD ic defIon).position))
        (specUnit ((pcc.ions.vals.getD ib defIon).position -
          ((convertToCartesian p).ions.vals.getD ic defIon).position))) := by
  simp only [bondAngle, h, Option.map_some', specQuadAngle, specUnit, Bool.false_eq_true,
    if_false]

/-- C5: `bond_angle` returns `arcsin |ra x rb|` of the two center-to-outer
unit vectors when their dot product is nonnegative and `pi` minus that
arcsin otherwise; on the concrete structure `pC5` the colinear triple
(1, 0, 2) yields `pi` (180 with `degrees=True`), the right-angle triple
(1, 0, 3) yields `pi / 2` (90 with `degrees=True`), and for every structure
and triple the result is unchanged when the two outer ions are swapped. -/
theorem C5_bond_angle_quadrant_values :
    (∀ (p : Poscar ℝ) (ia ic ib : ℕ) (pcc : Poscar ℝ),
      getCenteredAround (convertToCartesian p)
          ((convertToCartesian p).ions.vals.getD ic defIon).position
          (convertToCartesian p).mode = some pcc →
      bondAngle p ia ic ib false =
        some (specQuadAngle
          (specUnit ((pcc.ions.vals.getD ia defIon).position -
            ((convertToCartesian p).ions.vals.getD ic defIon).position))
          (specUnit ((pcc.ions.vals.getD ib defIon).position -
            ((convertToCartesian p).ions.vals.getD ic defIon).position)))) ∧
    (∀ (p : Poscar ℝ) (ia ic ib : ℕ) (d : Bool),
      bondAngle p ia ic ib d = bondAngle p ib ic ia d) ∧
    bondAngle pC5 1 0 2 false = some Real.pi ∧
    bondAngle pC5 1 0 2 true = some 180 ∧
    bondAngle pC5 1 0 3 false = some (Real.pi / 2) ∧
    bondAngle pC5 1 0 3 true = some 90 :=
  ⟨bondAngle_quadrant, bondAngle_swap, angle102, angle102d, angle103, angle103d⟩

/-- Witness: the quadrant formula of `C5_bond_angle_quadrant_values`
instantiated on the concrete structure `pC5` with the centering hypothesis
discharged by evaluation. -/
theorem C5_witness :
    bondAngle pC5 1 0 2 false =
      some (specQuadAngle
        (specUnit ((pC5.ions.vals.getD 1 defIon).position -
          (((convertToCartesian pC5) : Poscar ℝ).ions.vals.getD 0 defIon).position))
        (specUnit ((pC5.ions.vals.getD 2 defIon).position -
          ((convertToCartesian pC5 : Poscar ℝ).ions.vals.getD 0 defIon).position))) :=
  (C5_bond_angle_quadrant_values).1 pC5 1 0 2 pC5
    (by rw [pC5_conv, pC5_getD0, ionAt_pos, pC5_mode]; exact hcC5)

/-! ### C1: file round-trip -/

theorem digitChar_isDigit (d : ℕ) (h : d < 10) : (digitChar d).isDigit = true := by
  interval_cases d <;> rfl

theorem natDigits_ne_nil (n : ℕ) : natDigits n ≠ [] := by
  rw [natDigits]
  split
  · simp
  · simp

theorem natDigits_all_digit (n : ℕ) : ∀ c ∈ natDigits n, c.isDigit = true := by
  induction n using Nat.strong_induction_on with
  | _ n ih =>
    rw [natDigits]
    split
    case isTrue h =>
      intro c hc
      rw [List.mem_singleton] at hc
      subst hc
      exact digitChar_isDigit n h
    case isFalse h =>
      intro c hc
      rw [List.mem_append] at hc
      rcases hc with hc | hc
      · exact ih (n / 10) (Nat.div_lt_self (by omega) (by omega)) c hc
      · rw [List.mem_singleton] at hc
        subst hc
        exact digitChar_isDigit (n % 10) (Nat.mod_lt _ (by omega))

theorem toLower_digit {c : Char} (h : c.isDigit = true) : c.toLower = c := by
  apply char_eq_of_toNat_eq
  rw [isDigit_iff_toNat] at h
  rw [toLower_toNat]
  split_ifs <;> omega

theorem string_append_mk (l1 l2 : List Char) :
    String.mk l1 ++ String.mk l2 = String.mk (l1 ++ l2) := rfl

theorem placeholder_toList (m : ℕ) :
    ("H" ++ natStr m).toList = 'H' :: natDigits m := rfl

theorem pyLowerCapitalize_placeholder (m : ℕ) :
    pyLowerCapitalize ("H" ++ natStr m) = "H" ++ natStr m := by
  have h1 : "H" ++ natStr m = String.mk ('H' :: natDigits m) := rfl
  rw [h1]
  show String.mk ('H'.toLower.toUpper :: (natDigits m).map Char.toLower) = _
  have h2 : 'H'.toLower.toUpper = 'H' := rfl
  rw [h2]
  congr 1
  congr 1
  have := natDigits_all_digit m
  calc (natDigits m).map Char.toLower = (natDigits m).map id := by
        apply List.map_congr_left
        intro a ha
        exact toLower_digit (this a ha)
    _ = natDigits m := List.map_id _

theorem matchesPlaceholder_placeholder (m : ℕ) :
    matchesPlaceholder ("H" ++ natStr m) = true := by
  rw [matchesPlaceholder, placeholder_toList]
  rcases hd : natDigits m with _ | ⟨c, cs⟩
  · exact absurd hd (natDigits_ne_nil m)
  · have : c.isDigit = true := natDigits_all_digit m c (by rw [hd]; exact List.mem_cons_self c cs)
    simp [this]

theorem matchesPlaceholder_norm_alpha (s : String) (hne : s.toList ≠ [])
    (halpha : ∀ c ∈ s.toList, c.isAlpha = true) :
    matchesPlaceholder (pyLowerCapitalize s) = false := by
  rcases s with ⟨l⟩
  rcases l with _ | ⟨c, rest⟩
  · exact absurd rfl hne
  · show matchesPlaceholder (String.mk (c.toLower.toUpper :: rest.map Char.toLower)) = false
    rw [matchesPlaceholder]
    split
    next c1 tail h =>
      cases rest with
      | nil => simp at h
      | cons c2 rest2 =>
        have hc1 : c1 = c2.toLower := by
          injection h with h1 h2
          injection h2 with h3 h4
          exact h3.symm
        rw [hc1]
        exact toLower_not_digit_of_alpha (halpha c2 (by simp))
    next => rfl

theorem upsert_no_key (acc : List (String × ℕ)) (k : String) (v : ℕ)
    (h : ∀ a ∈ acc, a.1 ≠ k) : upsert acc k v = acc ++ [(k, v)] := by
  rw [upsert, if_neg]
  simp only [List.any_eq_true, beq_iff_eq, not_exists]
  intro a ha
  exact h a ha.1 ha.2

theorem foldl_upsert_norm :
    ∀ (ps acc : List (String × ℕ)),
      (∀ e ∈ ps, pyLowerCapitalize e.1 = e.1) →
      (∀ e ∈ ps, ∀ a ∈ acc, a.1 ≠ e.1) →
      (ps.map Prod.fst).Nodup →
      ps.foldl (fun acc e => upsert acc (pyLowerCapitalize e.1) e.2) acc = acc ++ ps := by
  intro ps
  induction ps with
  | nil => intro acc _ _ _; simp
  | cons e ps ih =>
    intro acc hnorm hdisj hnod
    rw [List.foldl_cons, hnorm e (by simp)]
    have hstep : upsert acc e.1 e.2 = acc ++ [(e.1, e.2)] :=
      upsert_no_key acc e.1 e.2 (fun a ha => hdisj e (by simp) a ha)
    rw [hstep, ih (acc ++ [(e.1, e.2)])]
    · simp
    · intro x hx
      exact hnorm x (by simp [hx])
    · intro x hx a ha
      rw [List.mem_append] at ha
      rcases ha with ha | ha
      · exact hdisj x (by simp [hx]) a ha
      · rw [List.mem_singleton] at ha
        subst ha
        show e.1 ≠ x.1
        rw [List.map_cons, List.nodup_cons] at hnod
        intro hcontra
        exact hnod.1 (hcontra ▸ List.mem_map_of_mem Prod.fst hx)
    · rw [List.map_cons, List.nodup_cons] at hnod
      exact hnod.2

theorem round8_close (q : ℚ) : |round8 q - q| ≤ 1 / 200000000 := by
  rw [round8, abs_sub_le_iff]
  have h1 : (⌊q * 100000000 + 1 / 2⌋ : ℚ) ≤ q * 100000000 + 1 / 2 := Int.floor_le _
  have h2 : q * 100000000 + 1 / 2 < (⌊q * 100000000 + 1 / 2⌋ : ℚ) + 1 := Int.lt_floor_add_one _
  constructor
  · rw [div_sub' _ _ _ (by norm_num), div_le_div_iff (by norm_num) (by norm_num)]
    nlinarith
  · rw [sub_div' _ _ _ (by norm_num), div_le_div_iff (by norm_num) (by norm_num)]
    nlinarith

theorem zip_snd_map {α β γ : Type} (xs : List α) (ys : List β) (g : β → γ)
    (h : ys.length ≤ xs.length) :
    (xs.zip ys).map (fun pr => g pr.2) = ys.map g := by
  have he : (fun pr : α × β => g pr.2) = g ∘ Prod.snd := rfl
  rw [he, ← List.map_map, List.map_snd_zip _ _ h]

theorem parseSpeciesKeys_length (F : PFile) (wf : wellFormedF F) :
    (parseSpeciesKeys F).length = F.counts.length := by
  have h := wf.2.1
  rcases hsp : F.speciesNames with _ | l
  · rw [parseSpeciesKeys, hsp]
    simp [placeholderNames]
  · rw [hsp] at h
    rw [parseSpeciesKeys, hsp, List.length_map]
    exact h.1

theorem parseSpeciesKeys_norm (F : PFile) :
    ∀ name ∈ parseSpeciesKeys F, pyLowerCapitalize name = name := by
  intro name hname
  rw [parseSpeciesKeys] at hname
  rcases hsp : F.speciesNames with _ | l <;> rw [hsp] at hname
  · rw [placeholderNames] at hname
    obtain ⟨i, _, rfl⟩ := List.mem_map.mp hname
    exact pyLowerCapitalize_placeholder (i + 1)
  · obtain ⟨x, _, rfl⟩ := List.mem_map.mp hname
    exact pyLowerCapitalize_idem x

theorem parsePoscar_wf (F : PFile) (wf : wellFormedF F) :
    parsePoscar F = some
      { comment := pyStrip F.comment, scale := sclF F, lattice := F.lattice,
        species := (parseSpeciesKeys F).zip F.counts, selective_dynamics := F.sdMarker,
        mode := modeF F, ions := ⟨ionsF F, List.range F.counts.sum⟩ } := by
  obtain ⟨hscale, hspec, hnod, hmode, hlen⟩ := wf
  have hkeylen : (parseSpeciesKeys F).length = F.counts.length :=
    parseSpeciesKeys_length F ⟨hscale, hspec, hnod, hmode, hlen⟩
  have hscl : (match F.scaleVals with
      | [s] => some (⟨s, s, s⟩ : V3 ℚ)
      | [a, b, c] => some ⟨a, b, c⟩
      | _ => none) = some (sclF F) := by
    rcases hscale with h | h
    · obtain ⟨s, hs⟩ := List.length_eq_one.mp h
      simp only [sclF, hs]
    · obtain ⟨a, b, c, habc⟩ := List.length_eq_three.mp h
      simp only [sclF, habc]
  have hmap : ((parseSpeciesKeys F).zip F.counts).foldl
      (fun acc e => upsert acc (pyLowerCapitalize e.1) e.2) []
      = (parseSpeciesKeys F).zip F.counts := by
    have := foldl_upsert_norm ((parseSpeciesKeys F).zip F.counts) []
      (fun e he => parseSpeciesKeys_norm F e.1 (List.mem_zip he).1)
      (fun e _ a ha => absurd ha (List.not_mem_nil a))
      (by rw [List.map_fst_zip _ _ hkeylen.le]; exact hnod)
    rw [this, List.nil_append]
  have hsum : ((((parseSpeciesKeys F).zip F.counts)).map Prod.snd).sum = F.counts.sum := by
    rw [List.map_snd_zip _ _ hkeylen.ge]
  have hcond1 : ((parseSpeciesKeys F).length ≠ F.counts.length) = False := by
    simp [hkeylen]
  have hmodeEq : (if (headLower F.modeLine == 'c' || headLower F.modeLine == 'k') = true
      then some "Cartesian"
      else if (headLower F.modeLine == 'd') = true then some "Direct" else none)
      = some (modeF F) := by
    rcases hmode with h | h | h <;> simp [modeF, h]
  have hcond2 : (F.ionLines.length < F.counts.sum) = False := by
    simp [hlen]
  have htake : F.ionLines.take F.counts.sum = F.ionLines := by
    rw [← hlen, List.take_length]
  rw [parsePoscar]
  rw [hscl, Option.some_bind]
  simp only [hcond1, if_false, hmap, hmodeEq, Option.some_bind, hsum, hcond2, htake, ionsF]

theorem scaleAllclose_diag (s : ℚ) : scaleAllclose ⟨s, s, s⟩ = true := by
  simp only [scaleAllclose, sub_self, abs_zero, Bool.and_eq_true, decide_eq_true_eq]
  refine ⟨⟨?_, ?_⟩, ?_⟩ <;> positivity

theorem placeholderNames_all (n : ℕ) :
    (placeholderNames n).all matchesPlaceholder = true := by
  rw [List.all_eq_true]
  intro x hx
  rw [placeholderNames] at hx
  obtain ⟨i, _, rfl⟩ := List.mem_map.mp hx
  exact matchesPlaceholder_placeholder (i + 1)

theorem length_expSpecies (F : PFile) (hkeylen : (parseSpeciesKeys F).length = F.counts.length) :
    ((((parseSpeciesKeys F).zip F.counts)).flatMap
      (fun e => List.replicate e.2 e.1)).length = F.counts.sum := by
  rw [List.length_flatMap]
  have h : (((parseSpeciesKeys F).zip F.counts).map
        (List.length ∘ fun e => List.replicate e.2 e.1))
      = ((parseSpeciesKeys F).zip F.counts).map Prod.snd := by
    apply List.map_congr_left
    intro e _
    simp only [Function.comp_apply, List.length_replicate]
  rw [h, List.map_snd_zip _ _ hkeylen.ge]

/-- C1 (amended): parsing a well-formed file succeeds, and serializing the
result reproduces the numeric content rounded to 8 decimal places, the
species order, the counts and the selective-dynamics marker; the comment is
reproduced stripped of surrounding whitespace (verbatim exactly when it has
none), and three distinct scale factors within `np.allclose` of each other
collapse to the first. -/
theorem C1_roundtrip_spec (F : PFile) (wf : wellFormedF F) :
    ∃ P, parsePoscar F = some P ∧
      (toStringP P).commentOut = pyStrip F.comment ∧
      (pyStrip F.comment = F.comment → (toStringP P).commentOut = F.comment) ∧
      (∀ s, F.scaleVals = [s] → (toStringP P).scaleOut = [round8 s]) ∧
      (∀ a b c, F.scaleVals = [a, b, c] →
        (toStringP P).scaleOut =
          if scaleAllclose ⟨a, b, c⟩ then [round8 a]
          else [round8 a, round8 b, round8 c]) ∧
      (toStringP P).latticeOut = round8M F.lattice ∧
      (toStringP P).speciesOut = F.speciesNames.map (fun l => l.map pyLowerCapitalize) ∧
      (toStringP P).countsOut = F.counts ∧
      (toStringP P).sdOut = F.sdMarker ∧
      (toStringP P).ionLinesOut = F.ionLines.map
        (fun e => (round8V e.1, if F.sdMarker then some e.2 else none)) ∧
      (∀ q : ℚ, |round8 q - q| ≤ 1 / 200000000) := by
  have hkeylen : (parseSpeciesKeys F).length = F.counts.length :=
    parseSpeciesKeys_length F wf
  refine ⟨_, parsePoscar_wf F wf, rfl, ?_, ?_, ?_, rfl, ?_, ?_, rfl, ?_, round8_close⟩
  · intro h
    show pyStrip F.comment = F.comment
    exact h
  · intro s hs
    have hsc : sclF F = ⟨s, s, s⟩ := by simp only [sclF, hs]
    show (if scaleAllclose (sclF F) then [round8 (sclF F).x]
        else [round8 (sclF F).x, round8 (sclF F).y, round8 (sclF F).z]) = [round8 s]
    rw [hsc]
    simp [scaleAllclose_diag]
  · intro a b c habc
    have hsc : sclF F = ⟨a, b, c⟩ := by simp only [sclF, habc]
    show (if scaleAllclose (sclF F) then [round8 (sclF F).x]
        else [round8 (sclF F).x, round8 (sclF F).y, round8 (sclF F).z]) = _
    rw [hsc]
  · show (if (((parseSpeciesKeys F).zip F.counts).map Prod.fst).all matchesPlaceholder
        then none else some (((parseSpeciesKeys F).zip F.counts).map Prod.fst))
        = F.speciesNames.map (fun l => l.map pyLowerCapitalize)
    rw [List.map_fst_zip _ _ hkeylen.le]
    rcases hsp : F.speciesNames with _ | l
    · simp only [parseSpeciesKeys, hsp, Option.map_none']
      simp [placeholderNames_all]
    · have hspec := wf.2.1
      rw [hsp] at hspec
      obtain ⟨hl1, hl2, hl3⟩ := hspec
      simp only [parseSpeciesKeys, hsp, Option.map_some']
      rcases l with _ | ⟨s0, rest⟩
      · exact absurd rfl hl2
      have h0 := hl3 s0 (by simp)
      have hm0 : matchesPlaceholder (pyLowerCapitalize s0) = false :=
        matchesPlaceholder_norm_alpha s0 h0.1 h0.2
      simp [hm0]
  · show ((parseSpeciesKeys F).zip F.counts).map Prod.snd = F.counts
    rw [List.map_snd_zip _ _ hkeylen.ge]
  · have hexps := length_expSpecies F hkeylen
    have hlen : F.ionLines.length = F.counts.sum := wf.2.2.2.2
    have hlions : (ionsF F).length = F.counts.sum := by
      rw [ionsF, List.length_map, List.length_zip, hexps, hlen, Nat.min_self]
    show ((List.range F.counts.sum).zip (ionsF F)).map
        (fun pr => (round8V pr.2.position,
          if F.sdMarker then some pr.2.selective_dynamics else none)) = _
    rw [zip_snd_map (List.range F.counts.sum) (ionsF F)
        (fun ion => (round8V ion.position,
          if F.sdMarker then some ion.selective_dynamics else none))
        (by rw [hlions, List.length_range])]
    rw [ionsF, List.map_map]
    have hfun : ((fun ion : Ion ℚ => (round8V ion.position,
        if F.sdMarker then some ion.selective_dynamics else none)) ∘
        (fun e : String × (V3 ℚ × (Bool × Bool × Bool)) =>
          ({ position := e.2.1, species := e.1,
             selective_dynamics := if F.sdMarker then e.2.2 else (true, true, true),
             velocity := v3zero } : Ion ℚ)))
        = fun e : String × (V3 ℚ × (Bool × Bool × Bool)) =>
            (round8V e.2.1, if F.sdMarker then some e.2.2 else none) := by
      funext e
      simp only [Function.comp_apply]
      rcases F.sdMarker <;> simp
    rw [hfun, zip_snd_map ((((parseSpeciesKeys F).zip F.counts)).flatMap
        (fun e => List.replicate e.2 e.1)) F.ionLines
        (fun line => (round8V line.1, if F.sdMarker then some line.2 else none))
        (by rw [hexps]; exact hlen.le)]

theorem wf_fC1 : wellFormedF fC1 :=
  ⟨Or.inl rfl, ⟨rfl, by decide, by decide⟩, by decide, Or.inr (Or.inr (by decide)), rfl⟩

theorem wf_fC1y : wellFormedF fC1y :=
  ⟨Or.inr rfl, ⟨rfl, by decide, by decide⟩, by decide, Or.inr (Or.inr (by decide)), rfl⟩

theorem C1_witness :
    wellFormedF fC1 ∧
    (∃ P, parsePoscar fC1 = some P ∧
      (toStringP P).commentOut = pyStrip fC1.comment ∧
      (pyStrip fC1.comment = fC1.comment → (toStringP P).commentOut = fC1.comment) ∧
      (∀ s, fC1.scaleVals = [s] → (toStringP P).scaleOut = [round8 s]) ∧
      (∀ a b c, fC1.scaleVals = [a, b, c] →
        (toStringP P).scaleOut =
          if scaleAllclose ⟨a, b, c⟩ then [round8 a]
          else [round8 a, round8 b, round8 c]) ∧
      (toStringP P).latticeOut = round8M fC1.lattice ∧
      (toStringP P).speciesOut = fC1.speciesNames.map (fun l => l.map pyLowerCapitalize) ∧
      (toStringP P).countsOut = fC1.counts ∧
      (toStringP P).sdOut = fC1.sdMarker ∧
      (toStringP P).ionLinesOut = fC1.ionLines.map
        (fun e => (round8V e.1, if fC1.sdMarker then some e.2 else none)) ∧
      (∀ q : ℚ, |round8 q - q| ≤ 1 / 200000000)) :=
  ⟨wf_fC1, C1_roundtrip_spec fC1 wf_fC1⟩

theorem C1_counterexample :
    (parsePoscar fC1x).map (fun P => (toStringP P).commentOut) = some "a" ∧
    fC1x.comment = " a" ∧
    ("a" : String) ≠ " a" ∧
    (parsePoscar fC1y).map (fun P => (toStringP P).scaleOut) = some [1] ∧
    fC1y.scaleVals = [1, 1 + 1/1000000, 1] ∧
    ¬ |(1 : ℚ) - (1 + 1/1000000)| ≤ 1 / 200000000 := by
  refine ⟨rfl, rfl, by decide, ?_, rfl, by norm_num [abs_le]⟩
  rw [parsePoscar_wf fC1y wf_fC1y, Option.map_some']
  congr 1
  show (if scaleAllclose (sclF fC1y) then [round8 (sclF fC1y).x]
      else [round8 (sclF fC1y).x, round8 (sclF fC1y).y, round8 (sclF fC1y).z]) = [1]
  have h1 : sclF fC1y = ⟨1, 1 + 1/1000000, 1⟩ := rfl
  rw [h1]
  have h2 : scaleAllclose ⟨(1 : ℚ), 1 + 1/1000000, 1⟩ = true := by
    simp only [scaleAllclose, Bool.and_eq_true, decide_eq_true_eq]
    norm_num [abs_le]
  rw [h2]
  have h3 : round8 (1 : ℚ) = 1 := by
    rw [round8]
    norm_num
  simp [h3]
